import Mathlib

/-!
# Verification of the Lilac Mesh subsystem

A shallow embedding, in Lean 4, of the Lilac Mesh loader/validator
(`src/util/lilac_mesh/lilac_mesh.c` + `lilac_mesh.h`) and of the parts of the
rasterizer (`src/util/lilacme2png/lilacme2png.c`) that the verified properties
concern, together with theorems settling the specification claims.

Modelling conventions:
* C `uint16_t` / `int32_t` / `uint32_t` values that are provably in range are
  modelled as `ℕ` (or `ℤ` where the C value can be negative, e.g. the result
  of `parseNumber` and error codes).  Where 32-bit wraparound could matter
  (the usage bitmaps) the words are kept `< 2 ^ 32` by an explicit invariant.
* C functions that can `abort()` are modelled as `Option`-valued functions,
  `none` standing for the fault.
* The C `double` arithmetic of the ORIENT check operates on values
  `p / 16384.0` with `p : ℕ ≤ 16384`.  Such values, their differences, the
  products of two differences and the difference of two products are all
  exactly representable in binary64 (numerators below `2 ^ 53`), so the
  computed cross product is exact and its sign equals the sign of the integer
  cross product; the embedding therefore uses exact `ℤ` arithmetic.
* The rasterizer's `float`/`double` attribute arithmetic is modelled over `ℚ`
  where only the clamping structure matters (mask preservation), and over `ℝ`
  for the claim that is explicitly about exact real arithmetic (interpolation
  endpoints).
-/

/-! ## Constants from lilac_mesh.h -/

def LILAC_MESH_MAX_C : ℕ := 16384

def LILAC_MESH_MAX_POINTS : ℕ := 1024

def LILAC_MESH_MAX_TRIS : ℕ := 1024

def MAX_SN_STACK : ℕ := 16

/-! Error codes from lilac_mesh.h (positive codes; negative codes are
tokenizer codes passed through unchanged). -/

def LM_ERR_OK : ℤ := 0
def LM_ERR_REM : ℤ := 1
def LM_ERR_PUNDEF : ℤ := 2
def LM_ERR_TUNDEF : ℤ := 3
def LM_ERR_ORPHAN : ℤ := 4
def LM_ERR_ETYPE : ℤ := 5
def LM_ERR_NUMBER : ℤ := 6
def LM_ERR_OVERFL : ℤ := 7
def LM_ERR_BADOP : ℤ := 8
def LM_ERR_UNDERF : ℤ := 9
def LM_ERR_NOSIG : ℤ := 10
def LM_ERR_SIGVER : ℤ := 11
def LM_ERR_NODIM : ℤ := 12
def LM_ERR_BADDIM : ℤ := 13
def LM_ERR_DIMVAL : ℤ := 14
def LM_ERR_PCOUNT : ℤ := 15
def LM_ERR_TCOUNT : ℤ := 16
def LM_ERR_NORMDA : ℤ := 17
def LM_ERR_NORM2P : ℤ := 18
def LM_ERR_PTOVER : ℤ := 19
def LM_ERR_PTREF : ℤ := 20
def LM_ERR_VXDUP : ℤ := 21
def LM_ERR_VXORD : ℤ := 22
def LM_ERR_ORIENT : ℤ := 23
def LM_ERR_TRSORT : ℤ := 24
def LM_ERR_DUPEDG : ℤ := 25
def LM_ERR_TROVER : ℤ := 26

/-! ## parseNumber (lilac_mesh.c lines 443-486)

The C function walks the NUL-terminated string; we walk the character list of
a `String`.  `result` is `int32_t` in C; since the loop breaks as soon as the
running value exceeds `LILAC_MESH_MAX_C` the intermediate values stay below
`16384 * 10 + 9`, far from `int32_t` overflow, so `ℤ` is a faithful model. -/

def parseNumberLoop : List Char → ℤ → ℤ
  | [], result => result
  | c :: rest, result =>
      if c.toNat < 48 ∨ 57 < c.toNat then -1
      else
        let r := result * 10 + ((c.toNat : ℤ) - 48)
        if r > (LILAC_MESH_MAX_C : ℤ) then -1 else parseNumberLoop rest r

def parseNumber (s : String) : ℤ :=
  if s.data = [] then -1 else parseNumberLoop s.data 0

/-- The decimal value of a digit string, accumulated from `acc`
(spec-side reference function). -/
def decValueFrom (acc : ℕ) (l : List Char) : ℕ :=
  l.foldl (fun a c => a * 10 + (c.toNat - 48)) acc

/-- Predicate: `c` is an ASCII decimal digit. -/
def isDigitCh (c : Char) : Prop := 48 ≤ c.toNat ∧ c.toNat ≤ 57

instance (c : Char) : Decidable (isDigitCh c) := by
  unfold isDigitCh; infer_instance

lemma decValueFrom_le (l : List Char) (acc : ℕ) : acc ≤ decValueFrom acc l := by
  induction l generalizing acc with
  | nil => simp [decValueFrom]
  | cons c rest ih =>
      have h1 : acc ≤ acc * 10 + (c.toNat - 48) := by
        calc acc ≤ acc * 10 := by omega
        _ ≤ acc * 10 + (c.toNat - 48) := by omega
      exact le_trans h1 (ih (acc * 10 + (c.toNat - 48)))

lemma parseNumberLoop_spec (l : List Char) (acc : ℕ) (hacc : acc ≤ 16384) :
    parseNumberLoop l (acc : ℤ) =
      if (∀ c ∈ l, isDigitCh c) ∧ decValueFrom acc l ≤ 16384
      then (decValueFrom acc l : ℤ) else -1 := by
  induction l generalizing acc with
  | nil => simp [parseNumberLoop, decValueFrom, hacc]
  | cons c rest ih =>
      by_cases hd : c.toNat < 48 ∨ 57 < c.toNat
      · have hnd : ¬ isDigitCh c := by unfold isDigitCh; omega
        simp only [parseNumberLoop, hd, if_true]
        rw [if_neg]
        rintro ⟨hall, -⟩
        exact hnd (hall c (List.mem_cons_self c rest))
      · have hdig : isDigitCh c := by unfold isDigitCh; omega
        have h48 : 48 ≤ c.toNat := hdig.1
        have hcast : (acc : ℤ) * 10 + ((c.toNat : ℤ) - 48)
            = ((acc * 10 + (c.toNat - 48) : ℕ) : ℤ) := by
          push_cast [h48]; ring
        set r : ℕ := acc * 10 + (c.toNat - 48) with hr
        have hunfold : parseNumberLoop (c :: rest) (acc : ℤ)
            = if (r : ℤ) > (LILAC_MESH_MAX_C : ℤ) then -1
              else parseNumberLoop rest (r : ℤ) := by
          simp only [parseNumberLoop, hd, if_false, hcast]
        have hdv : decValueFrom acc (c :: rest) = decValueFrom r rest := by
          simp [decValueFrom, hr]
        by_cases hov : r > 16384
        · have : (r : ℤ) > (LILAC_MESH_MAX_C : ℤ) := by
            unfold LILAC_MESH_MAX_C; exact_mod_cast hov
          rw [hunfold, if_pos this, eq_comm, hdv]
          rw [if_neg]
          rintro ⟨-, hle⟩
          have := decValueFrom_le rest r
          omega
        · push_neg at hov
          have : ¬ ((r : ℤ) > (LILAC_MESH_MAX_C : ℤ)) := by
            unfold LILAC_MESH_MAX_C; exact_mod_cast not_lt.mpr hov
          rw [hunfold, if_neg this, ih r hov, hdv]
          congr 1
          simp only [List.mem_cons, eq_iff_iff]
          constructor
          · rintro ⟨hall, hle⟩
            exact ⟨fun x hx => hx.elim (fun h => h ▸ hdig) (hall x), hle⟩
          · rintro ⟨hall, hle⟩
            exact ⟨fun x hx => hall x (Or.inr hx), hle⟩

lemma parseNumber_eq (s : String) :
    parseNumber s =
      if s.data ≠ [] ∧ (∀ c ∈ s.data, isDigitCh c) ∧
          decValueFrom 0 s.data ≤ 16384
      then (decValueFrom 0 s.data : ℤ) else -1 := by
  unfold parseNumber
  by_cases he : s.data = []
  · simp [he]
  · rw [if_neg he]
    have h0 : ((0 : ℕ) : ℤ) = (0 : ℤ) := rfl
    rw [← h0, parseNumberLoop_spec s.data 0 (by omega)]
    simp [he]

lemma parseNumber_range (s : String) :
    parseNumber s = -1 ∨ (0 ≤ parseNumber s ∧ parseNumber s ≤ 16384) := by
  rw [parseNumber_eq s]
  by_cases hc : s.data ≠ [] ∧ (∀ c ∈ s.data, isDigitCh c) ∧
      decValueFrom 0 s.data ≤ 16384
  · rw [if_pos hc]
    exact Or.inr ⟨by positivity, by exact_mod_cast hc.2.2⟩
  · rw [if_neg hc]
    exact Or.inl rfl

/-- **C5.** `parseNumber` returns the decimal value of the string iff the
string is non-empty, consists only of ASCII digits `0`-`9`, and its value is
at most `C_MAX = 16384`; in every other case it returns `-1`.  Consequently a
result other than `-1` is always an integer in `[0, 16384]`. -/
theorem parseNumber_correct :
    (∀ s : String,
      parseNumber s =
        if s.data ≠ [] ∧ (∀ c ∈ s.data, isDigitCh c) ∧ decValueFrom 0 s.data ≤ 16384
        then (decValueFrom 0 s.data : ℤ) else -1) ∧
    (∀ s : String, parseNumber s ≠ -1 →
      0 ≤ parseNumber s ∧ parseNumber s ≤ 16384) :=
  ⟨parseNumber_eq, fun s hne => (parseNumber_range s).resolve_left hne⟩

/-- Witness for C5's second conjunct: `"7"` parses successfully to a value in
range. -/
theorem parseNumber_correct_witness :
    parseNumber "7" ≠ -1 ∧
      (0 ≤ parseNumber "7" ∧ parseNumber "7" ≤ 16384) :=
  ⟨by decide, parseNumber_correct.2 "7" (by decide)⟩

/-! ## Usage map (lilac_mesh.c lines 39-427)

The C structure holds two `uint32_t` bitmap arrays and a point count.  The
arrays are modelled as functions from word index to word value; reachable
states keep every word `< 2 ^ 32` (an invariant proved where needed).
`abort()` branches are modelled as `none`.  The C index arguments are
`int32_t`; only non-negative values can reach these functions (negative
values abort), so `ℕ` indices are faithful. -/

structure USAGE_MAP where
  pPointUse : ℕ → ℕ
  pEdgeUse : ℕ → ℕ
  point_count : ℕ

/-- `usage_map_init` followed by `usage_map_dim` (lines 143-256): faults when
`point_count` is out of range, otherwise yields all-clear bitmaps.  (For
`point_count = 0` the C keeps NULL arrays that are never dereferenced; the
all-zero functions model this.) -/
def usage_map_dim (point_count : ℕ) : Option USAGE_MAP :=
  if point_count > LILAC_MESH_MAX_POINTS then none
  else some ⟨fun _ => 0, fun _ => 0, point_count⟩

/-- `usage_map_point` (lines 274-294): set bit `31 - i % 32` of word `i / 32`
of the point-use bitmap.  Faults when `i` is outside `[0, point_count)`. -/
def usage_map_point (pM : USAGE_MAP) (i : ℕ) : Option USAGE_MAP :=
  if i ≥ pM.point_count then none
  else
    some { pM with
      pPointUse := fun j =>
        if j = i / 32 then pM.pPointUse j ||| 2 ^ (31 - i % 32)
        else pM.pPointUse j }

/-- `usage_map_edge` (lines 321-359): bit `(i1 * point_count) + i2` of the
edge-use bitmap; returns `false` (leaving the map unchanged) when the bit was
already set, otherwise sets it and returns `true`.  Faults when either index
is outside `[0, point_count)`.  Note the C checks only the ranges of `i1` and
`i2`; despite its documentation comment it performs no `i1 == i2` check. -/
def usage_map_edge (pM : USAGE_MAP) (i1 i2 : ℕ) : Option (Bool × USAGE_MAP) :=
  if i1 ≥ pM.point_count ∨ i2 ≥ pM.point_count then none
  else
    let ix := i1 * pM.point_count + i2
    let offs := ix / 32
    let mask := 2 ^ (31 - ix % 32)
    if pM.pEdgeUse offs &&& mask ≠ 0 then some (false, pM)
    else
      some (true, { pM with
        pEdgeUse := fun j =>
          if j = offs then pM.pEdgeUse j ||| mask else pM.pEdgeUse j })

/-- `usage_map_orphan` (lines 379-427).  `(~w) != 0` on a `uint32_t` word `w`
is `(2 ^ 32 - 1) ^^^ w ≠ 0` for `w < 2 ^ 32`; the C loop with early `break`
is the `List.any` over the fully-used words. -/
def usage_map_orphan (pM : USAGE_MAP) : Bool :=
  if pM.point_count = 0 then false
  else
    let full_count := pM.point_count / 32
    let extra_bits := pM.point_count % 32
    if (List.range full_count).any
        (fun i => (2 ^ 32 - 1) ^^^ pM.pPointUse i ≠ 0) then true
    else if 0 < extra_bits ∧
        (2 ^ 32 - 1) ^^^
          (pM.pPointUse full_count ||| (2 ^ (32 - extra_bits) - 1)) ≠ 0 then
      true
    else false

/-- The conceptual bit of point `i` in the point-use bitmap: bit
`31 - i % 32` of word `i / 32` (the most significant bit of the first word is
point zero). -/
def pointBit (pM : USAGE_MAP) (i : ℕ) : Bool :=
  (pM.pPointUse (i / 32)).testBit (31 - i % 32)

/-- Run a sequence of `usage_map_point` calls. -/
def runMarks (pM : USAGE_MAP) : List ℕ → Option USAGE_MAP
  | [] => some pM
  | i :: rest =>
      match usage_map_point pM i with
      | none => none
      | some pM2 => runMarks pM2 rest

lemma compl32_ne_zero_iff {w : ℕ} (hw : w < 2 ^ 32) :
    ((2 ^ 32 - 1) ^^^ w ≠ 0) ↔ ∃ b, b < 32 ∧ w.testBit b = false := by
  constructor
  · intro h
    obtain ⟨b, hb⟩ := Nat.ne_zero_implies_bit_true h
    rw [Nat.testBit_xor, Nat.testBit_two_pow_sub_one] at hb
    by_cases hb32 : b < 32
    · refine ⟨b, hb32, ?_⟩
      cases hwb : w.testBit b
      · rfl
      · rw [hwb] at hb; simp [hb32] at hb
    · exfalso
      have hwb : w.testBit b = false :=
        Nat.testBit_lt_two_pow
          (lt_of_lt_of_le hw (Nat.pow_le_pow_right (by norm_num)
            (le_of_not_lt hb32)))
      rw [hwb] at hb; simp [hb32] at hb
  · rintro ⟨b, hb32, hwb⟩ h0
    have hbit := congrArg (fun x => x.testBit b) h0
    simp only [Nat.testBit_xor, Nat.testBit_two_pow_sub_one,
      Nat.zero_testBit] at hbit
    rw [hwb] at hbit
    simp [hb32] at hbit

lemma orphan_eq_true_iff (pM : USAGE_MAP) (hn : pM.point_count ≠ 0) :
    usage_map_orphan pM = true ↔
      ((∃ j, j < pM.point_count / 32 ∧ (2 ^ 32 - 1) ^^^ pM.pPointUse j ≠ 0) ∨
       (0 < pM.point_count % 32 ∧
         (2 ^ 32 - 1) ^^^
           (pM.pPointUse (pM.point_count / 32) |||
             (2 ^ (32 - pM.point_count % 32) - 1)) ≠ 0)) := by
  unfold usage_map_orphan
  rw [if_neg hn]
  by_cases hA : ((List.range (pM.point_count / 32)).any
      (fun i => (2 ^ 32 - 1) ^^^ pM.pPointUse i ≠ 0)) = true
  · rw [if_pos hA]
    simp only [true_iff]
    left
    rw [List.any_eq_true] at hA
    obtain ⟨j, hj, hcond⟩ := hA
    exact ⟨j, List.mem_range.mp hj, by simpa using hcond⟩
  · rw [if_neg hA]
    rw [List.any_eq_true] at hA
    push_neg at hA
    by_cases hB : 0 < pM.point_count % 32 ∧
        (2 ^ 32 - 1) ^^^
          (pM.pPointUse (pM.point_count / 32) |||
            (2 ^ (32 - pM.point_count % 32) - 1)) ≠ 0
    · rw [if_pos hB]
      simp only [true_iff]
      exact Or.inr hB
    · rw [if_neg hB]
      constructor
      · intro h; exact absurd h (by simp)
      · rintro (⟨j, hj, hcond⟩ | hBc)
        · exact absurd (decide_eq_true hcond)
            (hA _ (List.mem_range.mpr hj))
        · exact absurd hBc hB

/-- Characterization of `usage_map_orphan`: for a map whose words are genuine
32-bit values, it reports an orphan exactly when some index below
`point_count` has a clear bit. -/
lemma orphan_iff (pM : USAGE_MAP) (hw : ∀ w, pM.pPointUse w < 2 ^ 32) :
    usage_map_orphan pM = true ↔
      ∃ i, i < pM.point_count ∧ pointBit pM i = false := by
  by_cases hn : pM.point_count = 0
  · simp [usage_map_orphan, hn]
  rw [orphan_eq_true_iff pM hn]
  have hsplit : pM.point_count = 32 * (pM.point_count / 32) + pM.point_count % 32 := by
    omega
  constructor
  · rintro (⟨j, hj, hcond⟩ | ⟨he, hcond⟩)
    · obtain ⟨b, hb32, hbit⟩ := (compl32_ne_zero_iff (hw j)).mp hcond
      refine ⟨32 * j + (31 - b), ?_, ?_⟩
      · have : 32 * j + (31 - b) < 32 * (j + 1) := by omega
        have h2 : 32 * (j + 1) ≤ 32 * (pM.point_count / 32) := by omega
        omega
      · unfold pointBit
        have hdiv : (32 * j + (31 - b)) / 32 = j := by omega
        have hmod : (32 * j + (31 - b)) % 32 = 31 - b := by omega
        rw [hdiv, hmod]
        have : 31 - (31 - b) = b := by omega
        rw [this]; exact hbit
    · have hlt : pM.pPointUse (pM.point_count / 32) |||
          (2 ^ (32 - pM.point_count % 32) - 1) < 2 ^ 32 :=
        Nat.or_lt_two_pow (hw _)
          (lt_of_le_of_lt (Nat.sub_le _ _)
            (Nat.pow_lt_pow_right (by norm_num) (by omega)))
      obtain ⟨b, hb32, hbit⟩ := (compl32_ne_zero_iff hlt).mp hcond
      rw [Nat.testBit_or, Nat.testBit_two_pow_sub_one] at hbit
      have hword : (pM.pPointUse (pM.point_count / 32)).testBit b = false := by
        cases h : (pM.pPointUse (pM.point_count / 32)).testBit b
        · rfl
        · rw [h] at hbit; simp at hbit
      have hmask : ¬ (b < 32 - pM.point_count % 32) := by
        intro hc
        rw [hword] at hbit
        simp [hc] at hbit
      refine ⟨32 * (pM.point_count / 32) + (31 - b), by omega, ?_⟩
      unfold pointBit
      have hdiv : (32 * (pM.point_count / 32) + (31 - b)) / 32
          = pM.point_count / 32 := by omega
      have hmod : (32 * (pM.point_count / 32) + (31 - b)) % 32 = 31 - b := by
        omega
      rw [hdiv, hmod]
      have : 31 - (31 - b) = b := by omega
      rw [this]; exact hword
  · rintro ⟨i, hi, hbit⟩
    unfold pointBit at hbit
    by_cases hj : i / 32 < pM.point_count / 32
    · left
      refine ⟨i / 32, hj, (compl32_ne_zero_iff (hw _)).mpr
        ⟨31 - i % 32, by omega, hbit⟩⟩
    · right
      have hjeq : i / 32 = pM.point_count / 32 := by
        have := Nat.div_le_div_right (c := 32) (le_of_lt hi)
        omega
      have hmod : i % 32 < pM.point_count % 32 := by
        have h1 : i = 32 * (i / 32) + i % 32 := by omega
        rw [hjeq] at h1
        omega
      refine ⟨by omega, ?_⟩
      have hlt : pM.pPointUse (pM.point_count / 32) |||
          (2 ^ (32 - pM.point_count % 32) - 1) < 2 ^ 32 :=
        Nat.or_lt_two_pow (hw _)
          (lt_of_le_of_lt (Nat.sub_le _ _)
            (Nat.pow_lt_pow_right (by norm_num) (by omega)))
      refine (compl32_ne_zero_iff hlt).mpr ⟨31 - i % 32, by omega, ?_⟩
      rw [Nat.testBit_or, Nat.testBit_two_pow_sub_one]
      rw [hjeq] at hbit
      rw [hbit]
      simp only [Bool.false_or]
      have : ¬ (31 - i % 32 < 32 - pM.point_count % 32) := by omega
      simp [this]

lemma usage_map_point_char (pM : USAGE_MAP) (i : ℕ) (hi : i < pM.point_count) :
    ∃ pM2, usage_map_point pM i = some pM2 ∧
      pM2.point_count = pM.point_count ∧
      pM2.pEdgeUse = pM.pEdgeUse ∧
      (∀ w, pM.pPointUse w < 2 ^ 32 → pM2.pPointUse w < 2 ^ 32) ∧
      (∀ j, pointBit pM2 j = (pointBit pM j || decide (j = i))) := by
  have hcond : ¬ i ≥ pM.point_count := not_le.mpr hi
  refine ⟨{ pM with
      pPointUse := fun j =>
        if j = i / 32 then pM.pPointUse j ||| 2 ^ (31 - i % 32)
        else pM.pPointUse j },
    by rw [usage_map_point, if_neg hcond], rfl, rfl, ?_, ?_⟩
  · intro w hw
    show (if w = i / 32 then pM.pPointUse w ||| 2 ^ (31 - i % 32)
      else pM.pPointUse w) < 2 ^ 32
    by_cases hweq : w = i / 32
    · rw [if_pos hweq]
      exact Nat.or_lt_two_pow hw
        (Nat.pow_lt_pow_right (by norm_num) (by omega))
    · rw [if_neg hweq]; exact hw
  · intro j
    unfold pointBit
    show (if j / 32 = i / 32 then
        pM.pPointUse (j / 32) ||| 2 ^ (31 - i % 32)
      else pM.pPointUse (j / 32)).testBit (31 - j % 32) = _
    by_cases hweq : j / 32 = i / 32
    · rw [if_pos hweq, Nat.testBit_or, Nat.testBit_two_pow]
      congr 1
      rw [Bool.eq_iff_iff]
      simp only [decide_eq_true_eq]
      omega
    · rw [if_neg hweq]
      have : ¬ (j = i) := fun h => hweq (by rw [h])
      simp [this]

lemma runMarks_char (marks : List ℕ) (pM : USAGE_MAP)
    (hm : ∀ i ∈ marks, i < pM.point_count)
    (hw : ∀ w, pM.pPointUse w < 2 ^ 32) :
    ∃ pM2, runMarks pM marks = some pM2 ∧
      pM2.point_count = pM.point_count ∧
      pM2.pEdgeUse = pM.pEdgeUse ∧
      (∀ w, pM2.pPointUse w < 2 ^ 32) ∧
      (∀ j, pointBit pM2 j = (pointBit pM j || decide (j ∈ marks))) := by
  induction marks generalizing pM with
  | nil =>
      exact ⟨pM, rfl, rfl, rfl, hw, fun j => by simp⟩
  | cons i rest ih =>
      obtain ⟨pMa, hstep, hpc, hedge, hwa, hbit⟩ :=
        usage_map_point_char pM i (hm i (List.mem_cons_self i rest))
      obtain ⟨pMb, hrun, hpcb, hedgeb, hwb, hbitb⟩ :=
        ih pMa (fun x hx => hpc ▸ hm x (List.mem_cons_of_mem i hx))
          (fun w => hwa w (hw w))
      refine ⟨pMb, ?_, hpcb.trans hpc, hedgeb.trans hedge, hwb, ?_⟩
      · show runMarks pM (i :: rest) = some pMb
        unfold runMarks
        rw [hstep]
        exact hrun
      · intro j
        rw [hbitb j, hbit j]
        by_cases hji : j = i
        · simp [hji]
        · by_cases hjr : j ∈ rest <;> simp [hji, hjr]

/-- **C6.** For a usage map dimensioned with `n ∈ [0, LILAC_MESH_MAX_POINTS]`
and any sequence of `usage_map_point` calls with indices in `[0, n)`:
`usage_map_orphan` is nonzero iff some index in `[0, n)` was never marked;
the bits of the final word beyond index `n` never affect the result (the
result depends only on the bits at positions `< n`); and for `n = 0` the
result is zero. -/
theorem usage_map_orphan_correct (n : ℕ) (marks : List ℕ)
    (hn : n ≤ LILAC_MESH_MAX_POINTS) (hm : ∀ i ∈ marks, i < n) :
    ∃ um0 um, usage_map_dim n = some um0 ∧ runMarks um0 marks = some um ∧
      ((usage_map_orphan um = true) ↔ ∃ i, i < n ∧ i ∉ marks) ∧
      (∀ um' : USAGE_MAP, um'.point_count = n →
        (∀ w, um'.pPointUse w < 2 ^ 32) →
        (∀ i, i < n → pointBit um' i = pointBit um i) →
        usage_map_orphan um' = usage_map_orphan um) ∧
      (n = 0 → usage_map_orphan um = false) := by
  have hdim : usage_map_dim n = some ⟨fun _ => 0, fun _ => 0, n⟩ := by
    rw [usage_map_dim, if_neg (not_lt.mpr hn)]
  obtain ⟨um, hrun, hpc, hedge, hwum, hbit⟩ :=
    runMarks_char marks ⟨fun _ => 0, fun _ => 0, n⟩ hm
      (fun w => by positivity)
  have hpc' : um.point_count = n := hpc
  have hbit' : ∀ j, pointBit um j = decide (j ∈ marks) := by
    intro j
    rw [hbit j]
    simp [pointBit]
  refine ⟨_, um, hdim, hrun, ?_, ?_, ?_⟩
  · rw [orphan_iff um hwum, hpc']
    constructor
    · rintro ⟨i, hi, hb⟩
      refine ⟨i, hi, fun hmem => ?_⟩
      rw [hbit' i] at hb
      simp [hmem] at hb
    · rintro ⟨i, hi, hmem⟩
      refine ⟨i, hi, ?_⟩
      rw [hbit' i]
      simp [hmem]
  · intro um' hpc2 hw2 hagree
    rw [Bool.eq_iff_iff, orphan_iff um hwum, orphan_iff um' hw2, hpc', hpc2]
    constructor
    · rintro ⟨i, hi, hb⟩
      exact ⟨i, hi, (hagree i hi).symm ▸ hb⟩
    · rintro ⟨i, hi, hb⟩
      exact ⟨i, hi, (hagree i hi) ▸ hb⟩
  · intro hn0
    rw [usage_map_orphan, if_pos (hpc'.trans hn0)]

/-- Witness for C6 at `n = 2`, `marks = [0]`: index 1 is an orphan. -/
theorem usage_map_orphan_correct_witness :
    ∃ um0 um, usage_map_dim 2 = some um0 ∧ runMarks um0 [0] = some um ∧
      ((usage_map_orphan um = true) ↔ ∃ i, i < 2 ∧ i ∉ [0]) ∧
      (∀ um' : USAGE_MAP, um'.point_count = 2 →
        (∀ w, um'.pPointUse w < 2 ^ 32) →
        (∀ i, i < 2 → pointBit um' i = pointBit um i) →
        usage_map_orphan um' = usage_map_orphan um) ∧
      (2 = 0 → usage_map_orphan um = false) :=
  usage_map_orphan_correct 2 [0] (by norm_num [LILAC_MESH_MAX_POINTS])
    (by intro i hi; simp at hi; omega)

/-- **C7.** Contrary to its own documentation comment ("A fault occurs if i1
and i2 are equal"), `usage_map_edge` called with equal in-range indices does
NOT abort: on a freshly dimensioned one-point map, `usage_map_edge um 0 0`
returns a result (it marks the diagonal bit and reports success). -/
theorem usage_map_edge_equal_returns :
    ∃ um0, usage_map_dim 1 = some um0 ∧
      (usage_map_edge um0 0 0).isSome = true ∧
      Option.map Prod.fst (usage_map_edge um0 0 0) = some true :=
  ⟨⟨fun _ => 0, fun _ => 0, 1⟩, rfl, rfl, rfl⟩

/-! ## Mesh model (lilac_mesh.h lines 104-247)

Arrays are modelled as total functions; `point_count`/`tri_count` give the
meaningful extents, matching the C invariant that only indices below the
counts are accessed.  `calloc` zero-fills, so fresh meshes map everything to
zero. -/

structure LILAC_MESH_POINT where
  normd : ℕ
  norma : ℕ
  x : ℕ
  y : ℕ

structure LILAC_MESH where
  pPoints : ℕ → LILAC_MESH_POINT
  pTris : ℕ → ℕ
  point_count : ℕ
  tri_count : ℕ

/-! ## Point operation op_p (lilac_mesh.c lines 525-580) -/

/-- Result of `op_p`: the error-code variable (`none` when the operation
succeeded and `*pErrCode` was not written), the mesh, and the
points-written counter. -/
structure PointResult where
  err : Option ℤ
  mesh : LILAC_MESH
  ptsWritten : ℕ

def op_p (normd norma x y : ℕ) (pM : LILAC_MESH) (ptsWritten : ℕ) :
    Option PointResult :=
  if normd > LILAC_MESH_MAX_C ∨ norma > LILAC_MESH_MAX_C ∨
      x > LILAC_MESH_MAX_C ∨ y > LILAC_MESH_MAX_C then none
  else if normd = 0 ∧ norma ≠ 0 then
    some ⟨some LM_ERR_NORMDA, pM, ptsWritten⟩
  else if norma ≥ LILAC_MESH_MAX_C then
    some ⟨some LM_ERR_NORM2P, pM, ptsWritten⟩
  else if ptsWritten ≥ pM.point_count then
    some ⟨some LM_ERR_PTOVER, pM, ptsWritten⟩
  else
    some ⟨none,
      { pM with
        pPoints := fun j =>
          if j = ptsWritten then ⟨normd, norma, x, y⟩ else pM.pPoints j },
      ptsWritten + 1⟩

/-! ## Triangle operation op_t (lilac_mesh.c lines 627-784) -/

/-- The Z component of the cross product `(V2-V1)x(V3-V1)` over `ℤ`.  The C
code computes `((v2x-v1x)*(v3y-v1y)) - ((v2y-v1y)*(v3x-v1x))` in `double`
on the coordinates divided by `16384.0`; every intermediate there is exactly
representable in binary64 (multiples of `2⁻²⁸` with magnitude at most `2`),
so the C comparison `k > 0.0` equals `crossZ > 0` here. -/
def crossZ (pA pB pC : LILAC_MESH_POINT) : ℤ :=
  ((pB.x : ℤ) - (pA.x : ℤ)) * ((pC.y : ℤ) - (pA.y : ℤ)) -
    ((pB.y : ℤ) - (pA.y : ℤ)) * ((pC.x : ℤ) - (pA.x : ℤ))

/-- Result of `op_t`: error-code variable, mesh, triangles-written counter
and usage map. -/
structure TriResult where
  err : Option ℤ
  mesh : LILAC_MESH
  triWritten : ℕ
  um : USAGE_MAP

def op_t (v1 v2 v3 : ℕ) (pM : LILAC_MESH) (ptsWritten triWritten : ℕ)
    (um : USAGE_MAP) : Option TriResult :=
  if v1 > LILAC_MESH_MAX_C ∨ v2 > LILAC_MESH_MAX_C ∨ v3 > LILAC_MESH_MAX_C ∨
      ptsWritten > LILAC_MESH_MAX_POINTS then none
  else if v1 ≥ ptsWritten ∨ v2 ≥ ptsWritten ∨ v3 ≥ ptsWritten then
    some ⟨some LM_ERR_PTREF, pM, triWritten, um⟩
  else if v1 = v2 ∨ v2 = v3 ∨ v1 = v3 then
    some ⟨some LM_ERR_VXDUP, pM, triWritten, um⟩
  else if v2 < v1 ∨ v3 < v1 then
    some ⟨some LM_ERR_VXORD, pM, triWritten, um⟩
  else if ¬ (crossZ (pM.pPoints v1) (pM.pPoints v2) (pM.pPoints v3) > 0) then
    some ⟨some LM_ERR_ORIENT, pM, triWritten, um⟩
  else if triWritten > 0 ∧
      (pM.pTris ((triWritten - 1) * 3) > v1 ∨
        (pM.pTris ((triWritten - 1) * 3) = v1 ∧
          pM.pTris ((triWritten - 1) * 3 + 1) ≥ v2)) then
    some ⟨some LM_ERR_TRSORT, pM, triWritten, um⟩
  else if triWritten ≥ pM.tri_count then
    some ⟨some LM_ERR_TROVER, pM, triWritten, um⟩
  else
    match usage_map_edge um v1 v2 with
    | none => none
    | some (false, um1) => some ⟨some LM_ERR_DUPEDG, pM, triWritten, um1⟩
    | some (true, um1) =>
      match usage_map_edge um1 v2 v3 with
      | none => none
      | some (false, um2) => some ⟨some LM_ERR_DUPEDG, pM, triWritten, um2⟩
      | some (true, um2) =>
        match usage_map_edge um2 v3 v1 with
        | none => none
        | some (false, um3) => some ⟨some LM_ERR_DUPEDG, pM, triWritten, um3⟩
        | some (true, um3) =>
          match usage_map_point um3 v1 with
          | none => none
          | some um4 =>
            match usage_map_point um4 v2 with
            | none => none
            | some um5 =>
              match usage_map_point um5 v3 with
              | none => none
              | some um6 =>
                some ⟨none,
                  { pM with
                    pTris := fun j =>
                      if j = triWritten * 3 then v1
                      else if j = triWritten * 3 + 1 then v2
                      else if j = triWritten * 3 + 2 then v3
                      else pM.pTris j },
                  triWritten + 1, um6⟩

/-! ## Spec-side check order (spec §4.2.4 / claim C2)

Independent predicates for the seven validation checks, in the order the
specification documents them, and the first-failure error they produce.
These definitions follow the specification's wording, to be compared with
`op_t` which follows the source. -/

def chk_ptref (v1 v2 v3 ptsWritten : ℕ) : Prop :=
  v1 ≥ ptsWritten ∨ v2 ≥ ptsWritten ∨ v3 ≥ ptsWritten

def chk_vxdup (v1 v2 v3 : ℕ) : Prop :=
  v1 = v2 ∨ v2 = v3 ∨ v1 = v3

def chk_vxord (v1 v2 v3 : ℕ) : Prop :=
  v2 < v1 ∨ v3 < v1

def chk_orient (pM : LILAC_MESH) (v1 v2 v3 : ℕ) : Prop :=
  ¬ (crossZ (pM.pPoints v1) (pM.pPoints v2) (pM.pPoints v3) > 0)

/-- Spec §4.2.4 item 5: with a previous triangle `(v1', v2')`, require
`v1' < v1`, or `v1' == v1 ∧ v2' < v2`; else `TRSORT`. -/
def chk_trsort (pM : LILAC_MESH) (triWritten v1 v2 : ℕ) : Prop :=
  triWritten > 0 ∧
    ¬ (pM.pTris ((triWritten - 1) * 3) < v1 ∨
       (pM.pTris ((triWritten - 1) * 3) = v1 ∧
        pM.pTris ((triWritten - 1) * 3 + 1) < v2))

def chk_trover (pM : LILAC_MESH) (triWritten : ℕ) : Prop :=
  triWritten ≥ pM.tri_count

instance (v1 v2 v3 ptsWritten : ℕ) : Decidable (chk_ptref v1 v2 v3 ptsWritten) := by
  unfold chk_ptref; infer_instance

instance (v1 v2 v3 : ℕ) : Decidable (chk_vxdup v1 v2 v3) := by
  unfold chk_vxdup; infer_instance

instance (v1 v2 v3 : ℕ) : Decidable (chk_vxord v1 v2 v3) := by
  unfold chk_vxord; infer_instance

instance (pM : LILAC_MESH) (v1 v2 v3 : ℕ) : Decidable (chk_orient pM v1 v2 v3) := by
  unfold chk_orient; infer_instance

instance (pM : LILAC_MESH) (triWritten v1 v2 : ℕ) :
    Decidable (chk_trsort pM triWritten v1 v2) := by
  unfold chk_trsort; infer_instance

instance (pM : LILAC_MESH) (triWritten : ℕ) :
    Decidable (chk_trover pM triWritten) := by
  unfold chk_trover; infer_instance

/-- Consume directed edges in the given order through the usage map; the
first already-used edge yields `DUPEDG`. -/
def consumeEdges (um : USAGE_MAP) : List (ℕ × ℕ) → Option ℤ
  | [] => none
  | (i, j) :: rest =>
      match usage_map_edge um i j with
      | none => none
      | some (false, _) => some LM_ERR_DUPEDG
      | some (true, um2) => consumeEdges um2 rest

/-- The error of the first failing check in the documented order
PTREF, VXDUP, VXORD, ORIENT, TRSORT, TROVER, DUPEDG (edges `v1→v2`,
`v2→v3`, `v3→v1` consumed in that order); `none` when all checks pass. -/
def specTriError (v1 v2 v3 : ℕ) (pM : LILAC_MESH)
    (ptsWritten triWritten : ℕ) (um : USAGE_MAP) : Option ℤ :=
  if chk_ptref v1 v2 v3 ptsWritten then some LM_ERR_PTREF
  else if chk_vxdup v1 v2 v3 then some LM_ERR_VXDUP
  else if chk_vxord v1 v2 v3 then some LM_ERR_VXORD
  else if chk_orient pM v1 v2 v3 then some LM_ERR_ORIENT
  else if chk_trsort pM triWritten v1 v2 then some LM_ERR_TRSORT
  else if chk_trover pM triWritten then some LM_ERR_TROVER
  else consumeEdges um [(v1, v2), (v2, v3), (v3, v1)]

lemma pointBit_congr {m1 m2 : USAGE_MAP} (h : m1.pPointUse = m2.pPointUse) :
    ∀ j, pointBit m1 j = pointBit m2 j := by
  intro j; unfold pointBit; rw [h]

lemma usage_map_edge_char (um : USAGE_MAP) (i j : ℕ)
    (hi : i < um.point_count) (hj : j < um.point_count) :
    ∃ b um2, usage_map_edge um i j = some (b, um2) ∧
      um2.point_count = um.point_count ∧ um2.pPointUse = um.pPointUse := by
  have hcond : ¬ (i ≥ um.point_count ∨ j ≥ um.point_count) := by omega
  rw [usage_map_edge, if_neg hcond]
  by_cases hbit : um.pEdgeUse ((i * um.point_count + j) / 32) &&&
      2 ^ (31 - (i * um.point_count + j) % 32) ≠ 0
  · exact ⟨false, um, by rw [if_pos hbit], rfl, rfl⟩
  · exact ⟨true,
      { um with
        pEdgeUse := fun j2 =>
          if j2 = (i * um.point_count + j) / 32 then
            um.pEdgeUse j2 ||| 2 ^ (31 - (i * um.point_count + j) % 32)
          else um.pEdgeUse j2 },
      by rw [if_neg hbit], rfl, rfl⟩

/-- Exhaustive characterization of `op_p` under the caller-guaranteed ranges:
it never faults; on success the point is appended and the counter bumped; on
failure the mesh and counter are unchanged. -/
lemma op_p_cases (normd norma x y : ℕ) (pM : LILAC_MESH) (ptsWritten : ℕ)
    (h1 : normd ≤ LILAC_MESH_MAX_C) (h2 : norma ≤ LILAC_MESH_MAX_C)
    (h3 : x ≤ LILAC_MESH_MAX_C) (h4 : y ≤ LILAC_MESH_MAX_C) :
    ∃ r, op_p normd norma x y pM ptsWritten = some r ∧
      ((r.err = none ∧ ptsWritten < pM.point_count ∧
        r.ptsWritten = ptsWritten + 1 ∧
        r.mesh.point_count = pM.point_count ∧
        r.mesh.tri_count = pM.tri_count ∧
        r.mesh.pTris = pM.pTris ∧
        (∀ j, r.mesh.pPoints j =
          if j = ptsWritten then ⟨normd, norma, x, y⟩ else pM.pPoints j)) ∨
       (∃ e, r.err = some e ∧ r.mesh = pM ∧ r.ptsWritten = ptsWritten)) := by
  have habort : ¬ (normd > LILAC_MESH_MAX_C ∨ norma > LILAC_MESH_MAX_C ∨
      x > LILAC_MESH_MAX_C ∨ y > LILAC_MESH_MAX_C) := by omega
  rw [op_p, if_neg habort]
  by_cases hna : normd = 0 ∧ norma ≠ 0
  · exact ⟨_, by rw [if_pos hna], Or.inr ⟨_, rfl, rfl, rfl⟩⟩
  rw [if_neg hna]
  by_cases h2p : norma ≥ LILAC_MESH_MAX_C
  · exact ⟨_, by rw [if_pos h2p], Or.inr ⟨_, rfl, rfl, rfl⟩⟩
  rw [if_neg h2p]
  by_cases hov : ptsWritten ≥ pM.point_count
  · exact ⟨_, by rw [if_pos hov], Or.inr ⟨_, rfl, rfl, rfl⟩⟩
  rw [if_neg hov]
  exact ⟨_, rfl, Or.inl ⟨rfl, by omega, rfl, rfl, rfl, rfl, fun j => rfl⟩⟩

/-- Exhaustive characterization of `op_t` under the caller-guaranteed ranges:
it never faults; on success all checks passed, the triangle is appended at
`triWritten` and the usage map gains exactly the marks `v1, v2, v3`; on
failure the mesh and counter are unchanged and the point-use bitmap is
untouched (only the edge bitmap may be partially updated). -/
lemma op_t_cases (v1 v2 v3 : ℕ) (pM : LILAC_MESH)
    (ptsWritten triWritten : ℕ) (um : USAGE_MAP)
    (hv1 : v1 ≤ LILAC_MESH_MAX_C) (hv2 : v2 ≤ LILAC_MESH_MAX_C)
    (hv3 : v3 ≤ LILAC_MESH_MAX_C) (hpw : ptsWritten ≤ LILAC_MESH_MAX_POINTS)
    (hpc : ptsWritten ≤ um.point_count) :
    ∃ r, op_t v1 v2 v3 pM ptsWritten triWritten um = some r ∧
      r.um.point_count = um.point_count ∧
      (∀ w, um.pPointUse w < 2 ^ 32 → r.um.pPointUse w < 2 ^ 32) ∧
      ((r.err = none ∧
        v1 < ptsWritten ∧ v2 < ptsWritten ∧ v3 < ptsWritten ∧
        v1 ≠ v2 ∧ v2 ≠ v3 ∧ v1 ≠ v3 ∧
        triWritten < pM.tri_count ∧
        (triWritten > 0 →
          pM.pTris ((triWritten - 1) * 3) < v1 ∨
          (pM.pTris ((triWritten - 1) * 3) = v1 ∧
           pM.pTris ((triWritten - 1) * 3 + 1) < v2)) ∧
        r.triWritten = triWritten + 1 ∧
        r.mesh.point_count = pM.point_count ∧
        r.mesh.tri_count = pM.tri_count ∧
        r.mesh.pPoints = pM.pPoints ∧
        (∀ j, r.mesh.pTris j =
          if j = triWritten * 3 then v1
          else if j = triWritten * 3 + 1 then v2
          else if j = triWritten * 3 + 2 then v3
          else pM.pTris j) ∧
        (∀ j, pointBit r.um j =
          (pointBit um j || decide (j = v1) || decide (j = v2) ||
            decide (j = v3)))) ∨
       (∃ e, r.err = some e ∧ r.mesh = pM ∧ r.triWritten = triWritten ∧
         (∀ j, pointBit r.um j = pointBit um j))) := by
  have habort : ¬ (v1 > LILAC_MESH_MAX_C ∨ v2 > LILAC_MESH_MAX_C ∨
      v3 > LILAC_MESH_MAX_C ∨ ptsWritten > LILAC_MESH_MAX_POINTS) := by
    omega
  rw [op_t, if_neg habort]
  by_cases href : v1 ≥ ptsWritten ∨ v2 ≥ ptsWritten ∨ v3 ≥ ptsWritten
  · exact ⟨_, by rw [if_pos href], rfl, fun w hw => hw,
      Or.inr ⟨_, rfl, rfl, rfl, fun j => rfl⟩⟩
  rw [if_neg href]
  by_cases hdup : v1 = v2 ∨ v2 = v3 ∨ v1 = v3
  · exact ⟨_, by rw [if_pos hdup], rfl, fun w hw => hw,
      Or.inr ⟨_, rfl, rfl, rfl, fun j => rfl⟩⟩
  rw [if_neg hdup]
  by_cases hord : v2 < v1 ∨ v3 < v1
  · exact ⟨_, by rw [if_pos hord], rfl, fun w hw => hw,
      Or.inr ⟨_, rfl, rfl, rfl, fun j => rfl⟩⟩
  rw [if_neg hord]
  by_cases hor : ¬ (crossZ (pM.pPoints v1) (pM.pPoints v2) (pM.pPoints v3) > 0)
  · exact ⟨_, by rw [if_pos hor], rfl, fun w hw => hw,
      Or.inr ⟨_, rfl, rfl, rfl, fun j => rfl⟩⟩
  rw [if_neg hor]
  by_cases hsort : triWritten > 0 ∧
      (pM.pTris ((triWritten - 1) * 3) > v1 ∨
        (pM.pTris ((triWritten - 1) * 3) = v1 ∧
          pM.pTris ((triWritten - 1) * 3 + 1) ≥ v2))
  · exact ⟨_, by rw [if_pos hsort], rfl, fun w hw => hw,
      Or.inr ⟨_, rfl, rfl, rfl, fun j => rfl⟩⟩
  rw [if_neg hsort]
  by_cases hover : triWritten ≥ pM.tri_count
  · exact ⟨_, by rw [if_pos hover], rfl, fun w hw => hw,
      Or.inr ⟨_, rfl, rfl, rfl, fun j => rfl⟩⟩
  rw [if_neg hover]
  have hv1p : v1 < um.point_count := by omega
  have hv2p : v2 < um.point_count := by omega
  have hv3p : v3 < um.point_count := by omega
  obtain ⟨b1, um1, he1, hpc1, hpu1⟩ := usage_map_edge_char um v1 v2 hv1p hv2p
  simp only [he1]
  cases b1 with
  | false =>
      exact ⟨_, rfl, hpc1, fun w hw => by rw [hpu1]; exact hw,
        Or.inr ⟨_, rfl, rfl, rfl, pointBit_congr hpu1⟩⟩
  | true =>
      obtain ⟨b2, um2, he2, hpc2, hpu2⟩ :=
        usage_map_edge_char um1 v2 v3 (hpc1 ▸ hv2p) (hpc1 ▸ hv3p)
      simp only [he2]
      cases b2 with
      | false =>
          refine ⟨_, rfl, hpc2.trans hpc1,
            fun w hw => by rw [hpu2, hpu1]; exact hw,
            Or.inr ⟨_, rfl, rfl, rfl,
              pointBit_congr (hpu2.trans hpu1)⟩⟩
      | true =>
          obtain ⟨b3, um3, he3, hpc3, hpu3⟩ :=
            usage_map_edge_char um2 v3 v1
              ((hpc2.trans hpc1) ▸ hv3p) ((hpc2.trans hpc1) ▸ hv1p)
          simp only [he3]
          cases b3 with
          | false =>
              refine ⟨_, rfl, hpc3.trans (hpc2.trans hpc1),
                fun w hw => by rw [hpu3, hpu2, hpu1]; exact hw,
                Or.inr ⟨_, rfl, rfl, rfl,
                  pointBit_congr ((hpu3.trans hpu2).trans hpu1)⟩⟩
          | true =>
              have hpc123 : um3.point_count = um.point_count :=
                hpc3.trans (hpc2.trans hpc1)
              have hpu123 : um3.pPointUse = um.pPointUse :=
                (hpu3.trans hpu2).trans hpu1
              obtain ⟨um4, hm1, hq1, _, hw1, hb1⟩ :=
                usage_map_point_char um3 v1 (hpc123 ▸ hv1p)
              obtain ⟨um5, hm2, hq2, _, hw2, hb2⟩ :=
                usage_map_point_char um4 v2 ((hq1.trans hpc123) ▸ hv2p)
              obtain ⟨um6, hm3, hq3, _, hw3, hb3⟩ :=
                usage_map_point_char um5 v3
                  ((hq2.trans (hq1.trans hpc123)) ▸ hv3p)
              simp only [hm1, hm2, hm3]
              refine ⟨_, rfl, (hq3.trans (hq2.trans hq1)).trans hpc123,
                ?_, Or.inl ⟨rfl, by omega, by omega, by omega,
                  by tauto, by tauto, by tauto, by omega, ?_, rfl, rfl,
                  rfl, rfl, fun j => rfl, ?_⟩⟩
              · intro w hw
                refine hw3 w (hw2 w (hw1 w ?_))
                rw [hpu123]; exact hw
              · intro ht0
                rcases not_or.mp (fun hc => hsort ⟨ht0, hc⟩) with h
                push_neg at hsort
                have := hsort ht0
                omega
              · intro j
                rw [hb3 j, hb2 j, hb1 j, pointBit_congr hpu123 j]

/-- A trivial empty mesh and usage map, used by concrete witnesses. -/
def mesh0 : LILAC_MESH := ⟨fun _ => ⟨0, 0, 0, 0⟩, fun _ => 0, 0, 0⟩

def um0 : USAGE_MAP := ⟨fun _ => 0, fun _ => 0, 0⟩

/-- **C2.** Whenever `op_t` returns (does not fault), the error-code variable
holds exactly the code of the first failing check in the documented order
PTREF, VXDUP, VXORD, ORIENT, TRSORT, TROVER, DUPEDG (edges consumed in the
order `v1→v2`, `v2→v3`, `v3→v1`), and `none` when every check passes.  In
particular a triangle with two equal (defined) vertices always reports
`VXDUP`, regardless of its orientation. -/
theorem op_t_check_order :
    (∀ v1 v2 v3 pM ptsWritten triWritten um r,
      op_t v1 v2 v3 pM ptsWritten triWritten um = some r →
      r.err = specTriError v1 v2 v3 pM ptsWritten triWritten um) ∧
    (∀ v1 v3 pM ptsWritten triWritten um r,
      v1 < ptsWritten → v3 < ptsWritten →
      op_t v1 v1 v3 pM ptsWritten triWritten um = some r →
      r.err = some LM_ERR_VXDUP) := by
  have main : ∀ v1 v2 v3 pM ptsWritten triWritten um r,
      op_t v1 v2 v3 pM ptsWritten triWritten um = some r →
      r.err = specTriError v1 v2 v3 pM ptsWritten triWritten um := by
    intro v1 v2 v3 pM ptsWritten triWritten um r h
    unfold op_t at h
    unfold specTriError
    by_cases habort : v1 > LILAC_MESH_MAX_C ∨ v2 > LILAC_MESH_MAX_C ∨
        v3 > LILAC_MESH_MAX_C ∨ ptsWritten > LILAC_MESH_MAX_POINTS
    · rw [if_pos habort] at h; exact Option.noConfusion h
    rw [if_neg habort] at h
    by_cases h1 : v1 ≥ ptsWritten ∨ v2 ≥ ptsWritten ∨ v3 ≥ ptsWritten
    · rw [if_pos h1] at h
      obtain rfl := (Option.some.inj h).symm
      rw [if_pos (show chk_ptref v1 v2 v3 ptsWritten from h1)]
    rw [if_neg h1] at h
    rw [if_neg (show ¬ chk_ptref v1 v2 v3 ptsWritten from h1)]
    by_cases h2 : v1 = v2 ∨ v2 = v3 ∨ v1 = v3
    · rw [if_pos h2] at h
      obtain rfl := (Option.some.inj h).symm
      rw [if_pos (show chk_vxdup v1 v2 v3 from h2)]
    rw [if_neg h2] at h
    rw [if_neg (show ¬ chk_vxdup v1 v2 v3 from h2)]
    by_cases h3 : v2 < v1 ∨ v3 < v1
    · rw [if_pos h3] at h
      obtain rfl := (Option.some.inj h).symm
      rw [if_pos (show chk_vxord v1 v2 v3 from h3)]
    rw [if_neg h3] at h
    rw [if_neg (show ¬ chk_vxord v1 v2 v3 from h3)]
    by_cases h4 : ¬ (crossZ (pM.pPoints v1) (pM.pPoints v2) (pM.pPoints v3) > 0)
    · rw [if_pos h4] at h
      obtain rfl := (Option.some.inj h).symm
      rw [if_pos (show chk_orient pM v1 v2 v3 from h4)]
    rw [if_neg h4] at h
    rw [if_neg (show ¬ chk_orient pM v1 v2 v3 from h4)]
    have hsort_iff : (triWritten > 0 ∧
        (pM.pTris ((triWritten - 1) * 3) > v1 ∨
          (pM.pTris ((triWritten - 1) * 3) = v1 ∧
            pM.pTris ((triWritten - 1) * 3 + 1) ≥ v2)))
        ↔ chk_trsort pM triWritten v1 v2 := by
      unfold chk_trsort; omega
    by_cases h5 : triWritten > 0 ∧
        (pM.pTris ((triWritten - 1) * 3) > v1 ∨
          (pM.pTris ((triWritten - 1) * 3) = v1 ∧
            pM.pTris ((triWritten - 1) * 3 + 1) ≥ v2))
    · rw [if_pos h5] at h
      obtain rfl := (Option.some.inj h).symm
      rw [if_pos (hsort_iff.mp h5)]
    rw [if_neg h5] at h
    rw [if_neg (fun hc => h5 (hsort_iff.mpr hc))]
    by_cases h6 : triWritten ≥ pM.tri_count
    · rw [if_pos h6] at h
      obtain rfl := (Option.some.inj h).symm
      rw [if_pos (show chk_trover pM triWritten from h6)]
    rw [if_neg h6] at h
    rw [if_neg (show ¬ chk_trover pM triWritten from h6)]
    cases he1 : usage_map_edge um v1 v2 with
    | none => simp only [he1] at h; exact Option.noConfusion h
    | some p1 =>
      obtain ⟨b1, um1⟩ := p1
      simp only [he1] at h
      cases b1 with
      | false =>
          obtain rfl := (Option.some.inj h).symm
          simp [consumeEdges, he1]
      | true =>
        cases he2 : usage_map_edge um1 v2 v3 with
        | none => simp only [he2] at h; exact Option.noConfusion h
        | some p2 =>
          obtain ⟨b2, um2⟩ := p2
          simp only [he2] at h
          cases b2 with
          | false =>
              obtain rfl := (Option.some.inj h).symm
              simp [consumeEdges, he1, he2]
          | true =>
            cases he3 : usage_map_edge um2 v3 v1 with
            | none => simp only [he3] at h; exact Option.noConfusion h
            | some p3 =>
              obtain ⟨b3, um3⟩ := p3
              simp only [he3] at h
              cases b3 with
              | false =>
                  obtain rfl := (Option.some.inj h).symm
                  simp [consumeEdges, he1, he2, he3]
              | true =>
                cases hm1 : usage_map_point um3 v1 with
                | none => simp only [hm1] at h; exact Option.noConfusion h
                | some um4 =>
                  simp only [hm1] at h
                  cases hm2 : usage_map_point um4 v2 with
                  | none => simp only [hm2] at h; exact Option.noConfusion h
                  | some um5 =>
                    simp only [hm2] at h
                    cases hm3 : usage_map_point um5 v3 with
                    | none => simp only [hm3] at h; exact Option.noConfusion h
                    | some um6 =>
                      simp only [hm3] at h
                      obtain rfl := (Option.some.inj h).symm
                      simp [consumeEdges, he1, he2, he3]
  refine ⟨main, fun v1 v3 pM ptsWritten triWritten um r hlt1 hlt3 h => ?_⟩
  rw [main v1 v1 v3 pM ptsWritten triWritten um r h]
  unfold specTriError
  rw [if_neg (show ¬ chk_ptref v1 v1 v3 ptsWritten by unfold chk_ptref; omega)]
  rw [if_pos (show chk_vxdup v1 v1 v3 from Or.inl rfl)]

/-- Witness for C2: `op_t` on the concrete call `v1 = v2 = 0`, `v3 = 1` with
two points defined (a degenerate triangle whose orientation is also invalid)
reports `VXDUP`. -/
theorem op_t_check_order_witness :
    (0 : ℕ) < 2 ∧ (1 : ℕ) < 2 ∧
      op_t 0 0 1 mesh0 2 0 um0 =
        some ⟨some LM_ERR_VXDUP, mesh0, 0, um0⟩ ∧
      (⟨some LM_ERR_VXDUP, mesh0, 0, um0⟩ : TriResult).err =
        some LM_ERR_VXDUP :=
  ⟨by norm_num, by norm_num, rfl,
    op_t_check_order.2 0 1 mesh0 2 0 um0 _ (by norm_num) (by norm_num) rfl⟩

/-- **C9.** Loader operations are atomic on the mesh state: whenever `op_t`
returns failure (any error code) the mesh and the triangles-written counter
are unchanged, and whenever `op_p` returns failure the mesh and the
points-written counter are unchanged.  (Only the loader-internal usage map
may be partially updated, on a `DUPEDG` failure.) -/
theorem op_atomicity :
    (∀ v1 v2 v3 pM ptsWritten triWritten um e r,
      op_t v1 v2 v3 pM ptsWritten triWritten um = some r →
      r.err = some e →
      r.mesh = pM ∧ r.triWritten = triWritten) ∧
    (∀ normd norma x y pM ptsWritten e r,
      op_p normd norma x y pM ptsWritten = some r →
      r.err = some e →
      r.mesh = pM ∧ r.ptsWritten = ptsWritten) := by
  constructor
  · intro v1 v2 v3 pM ptsWritten triWritten um e r h herr
    unfold op_t at h
    by_cases habort : v1 > LILAC_MESH_MAX_C ∨ v2 > LILAC_MESH_MAX_C ∨
        v3 > LILAC_MESH_MAX_C ∨ ptsWritten > LILAC_MESH_MAX_POINTS
    · rw [if_pos habort] at h; exact Option.noConfusion h
    rw [if_neg habort] at h
    by_cases h1 : v1 ≥ ptsWritten ∨ v2 ≥ ptsWritten ∨ v3 ≥ ptsWritten
    · rw [if_pos h1] at h
      obtain rfl := (Option.some.inj h).symm
      exact ⟨rfl, rfl⟩
    rw [if_neg h1] at h
    by_cases h2 : v1 = v2 ∨ v2 = v3 ∨ v1 = v3
    · rw [if_pos h2] at h
      obtain rfl := (Option.some.inj h).symm
      exact ⟨rfl, rfl⟩
    rw [if_neg h2] at h
    by_cases h3 : v2 < v1 ∨ v3 < v1
    · rw [if_pos h3] at h
      obtain rfl := (Option.some.inj h).symm
      exact ⟨rfl, rfl⟩
    rw [if_neg h3] at h
    by_cases h4 : ¬ (crossZ (pM.pPoints v1) (pM.pPoints v2) (pM.pPoints v3) > 0)
    · rw [if_pos h4] at h
      obtain rfl := (Option.some.inj h).symm
      exact ⟨rfl, rfl⟩
    rw [if_neg h4] at h
    by_cases h5 : triWritten > 0 ∧
        (pM.pTris ((triWritten - 1) * 3) > v1 ∨
          (pM.pTris ((triWritten - 1) * 3) = v1 ∧
            pM.pTris ((triWritten - 1) * 3 + 1) ≥ v2))
    · rw [if_pos h5] at h
      obtain rfl := (Option.some.inj h).symm
      exact ⟨rfl, rfl⟩
    rw [if_neg h5] at h
    by_cases h6 : triWritten ≥ pM.tri_count
    · rw [if_pos h6] at h
      obtain rfl := (Option.some.inj h).symm
      exact ⟨rfl, rfl⟩
    rw [if_neg h6] at h
    cases he1 : usage_map_edge um v1 v2 with
    | none => simp only [he1] at h; exact Option.noConfusion h
    | some p1 =>
      obtain ⟨b1, um1⟩ := p1
      simp only [he1] at h
      cases b1 with
      | false =>
          obtain rfl := (Option.some.inj h).symm
          exact ⟨rfl, rfl⟩
      | true =>
        cases he2 : usage_map_edge um1 v2 v3 with
        | none => simp only [he2] at h; exact Option.noConfusion h
        | some p2 =>
          obtain ⟨b2, um2⟩ := p2
          simp only [he2] at h
          cases b2 with
          | false =>
              obtain rfl := (Option.some.inj h).symm
              exact ⟨rfl, rfl⟩
          | true =>
            cases he3 : usage_map_edge um2 v3 v1 with
            | none => simp only [he3] at h; exact Option.noConfusion h
            | some p3 =>
              obtain ⟨b3, um3⟩ := p3
              simp only [he3] at h
              cases b3 with
              | false =>
                  obtain rfl := (Option.some.inj h).symm
                  exact ⟨rfl, rfl⟩
              | true =>
                cases hm1 : usage_map_point um3 v1 with
                | none => simp only [hm1] at h; exact Option.noConfusion h
                | some um4 =>
                  simp only [hm1] at h
                  cases hm2 : usage_map_point um4 v2 with
                  | none => simp only [hm2] at h; exact Option.noConfusion h
                  | some um5 =>
                    simp only [hm2] at h
                    cases hm3 : usage_map_point um5 v3 with
                    | none =>
                        simp only [hm3] at h; exact Option.noConfusion h
                    | some um6 =>
                      simp only [hm3] at h
                      obtain rfl := (Option.some.inj h).symm
                      exact Option.noConfusion herr
  · intro normd norma x y pM ptsWritten e r h herr
    unfold op_p at h
    by_cases habort : normd > LILAC_MESH_MAX_C ∨ norma > LILAC_MESH_MAX_C ∨
        x > LILAC_MESH_MAX_C ∨ y > LILAC_MESH_MAX_C
    · rw [if_pos habort] at h; exact Option.noConfusion h
    rw [if_neg habort] at h
    by_cases hna : normd = 0 ∧ norma ≠ 0
    · rw [if_pos hna] at h
      obtain rfl := (Option.some.inj h).symm
      exact ⟨rfl, rfl⟩
    rw [if_neg hna] at h
    by_cases h2p : norma ≥ LILAC_MESH_MAX_C
    · rw [if_pos h2p] at h
      obtain rfl := (Option.some.inj h).symm
      exact ⟨rfl, rfl⟩
    rw [if_neg h2p] at h
    by_cases hov : ptsWritten ≥ pM.point_count
    · rw [if_pos hov] at h
      obtain rfl := (Option.some.inj h).symm
      exact ⟨rfl, rfl⟩
    rw [if_neg hov] at h
    obtain rfl := (Option.some.inj h).symm
    exact Option.noConfusion herr

/-- Witness for C9: a concrete failing `op_t` call (`PTREF`, no points
defined yet) leaves the mesh and the counter unchanged. -/
theorem op_atomicity_witness :
    op_t 0 1 2 mesh0 0 0 um0 = some ⟨some LM_ERR_PTREF, mesh0, 0, um0⟩ ∧
      ((⟨some LM_ERR_PTREF, mesh0, 0, um0⟩ : TriResult).mesh = mesh0 ∧
       (⟨some LM_ERR_PTREF, mesh0, 0, um0⟩ : TriResult).triWritten = 0) :=
  ⟨rfl, op_atomicity.1 0 1 2 mesh0 0 0 um0 LM_ERR_PTREF _ rfl rfl⟩

/-! ## The loader: lilac_mesh_new (lilac_mesh.c lines 818-1291)

The Shastina tokenizer (external to the repository) produces a stream of
tagged entities; `lilac_mesh_new` consumes it.  The input is modelled as the
list of entities the parser would deliver; reading past the end of the list
(or reaching an explicit end-of-input entity) is the EOF of status zero, and
a tokenizer failure is an entity carrying the (negative) status code, which
the loader passes through unchanged.  Line-number output, which no verified
property concerns, is not modelled. -/

inductive SNENTITY where
  | beginMeta
  | endMeta
  | metaToken (text : String)
  | numeric (text : String)
  | operation (name : String)
  | err (code : ℤ)
  | eofEnt

/-- One `snparser_read`: the head entity, or EOF at the end of the stream. -/
def nextEnt : List SNENTITY → SNENTITY × List SNENTITY
  | [] => (SNENTITY.eofEnt, [])
  | e :: rest => (e, rest)

/-- `readHeader` (lines 818-1014): signature metacommand, then the `dim`
metacommand with two decimal dimensions, validated against
`LILAC_MESH_MAX_POINTS` / `LILAC_MESH_MAX_TRIS`. -/
def readHeader (l : List SNENTITY) : Except ℤ (ℕ × ℕ × List SNENTITY) :=
  match nextEnt l with
  | (SNENTITY.err c, _) => Except.error c
  | (SNENTITY.beginMeta, l1) =>
    match nextEnt l1 with
    | (SNENTITY.err c, _) => Except.error c
    | (SNENTITY.metaToken s2, l2) =>
      if s2 = "lilac-mesh" then
        match nextEnt l2 with
        | (SNENTITY.err c, _) => Except.error c
        | (SNENTITY.endMeta, l3) =>
          match nextEnt l3 with
          | (SNENTITY.err c, _) => Except.error c
          | (SNENTITY.beginMeta, l4) =>
            match nextEnt l4 with
            | (SNENTITY.err c, _) => Except.error c
            | (SNENTITY.metaToken s5, l5) =>
              if s5 = "dim" then
                match nextEnt l5 with
                | (SNENTITY.err c, _) => Except.error c
                | (SNENTITY.metaToken s6, l6) =>
                  if parseNumber s6 < 0 then Except.error LM_ERR_DIMVAL
                  else
                    match nextEnt l6 with
                    | (SNENTITY.err c, _) => Except.error c
                    | (SNENTITY.metaToken s7, l7) =>
                      if parseNumber s7 < 0 then Except.error LM_ERR_DIMVAL
                      else
                        match nextEnt l7 with
                        | (SNENTITY.err c, _) => Except.error c
                        | (SNENTITY.endMeta, l8) =>
                          if parseNumber s6 < 0 ∨
                              parseNumber s6 > (LILAC_MESH_MAX_POINTS : ℤ)
                          then Except.error LM_ERR_PCOUNT
                          else if parseNumber s7 < 0 ∨
                              parseNumber s7 > (LILAC_MESH_MAX_TRIS : ℤ)
                          then Except.error LM_ERR_TCOUNT
                          else Except.ok ((parseNumber s6).toNat,
                            (parseNumber s7).toNat, l8)
                        | _ => Except.error LM_ERR_BADDIM
                    | _ => Except.error LM_ERR_BADDIM
                | _ => Except.error LM_ERR_BADDIM
              else Except.error LM_ERR_NODIM
            | _ => Except.error LM_ERR_NODIM
          | _ => Except.error LM_ERR_NODIM
        | _ => Except.error LM_ERR_SIGVER
      else Except.error LM_ERR_NOSIG
    | _ => Except.error LM_ERR_NOSIG
  | _ => Except.error LM_ERR_NOSIG

/-- Loader state during the body loop of `lilac_mesh_new`: the mesh being
built, the two written counters, the usage map, and the interpreter stack
(array plus count). -/
structure LoaderState where
  mesh : LILAC_MESH
  ptsWritten : ℕ
  trisWritten : ℕ
  um : USAGE_MAP
  st : ℕ → ℕ
  stCount : ℕ

/-- The end-of-input checks of `lilac_mesh_new` (lines 1243-1266). -/
def endChecks (s : LoaderState) : Except ℤ LoaderState :=
  if s.stCount > 0 then Except.error LM_ERR_REM
  else if s.ptsWritten ≠ s.mesh.point_count then Except.error LM_ERR_PUNDEF
  else if s.trisWritten ≠ s.mesh.tri_count then Except.error LM_ERR_TUNDEF
  else if usage_map_orphan s.um then Except.error LM_ERR_ORPHAN
  else Except.ok s

/-- The interpreter loop of `lilac_mesh_new` (lines 1123-1267).  `none` is a
fault (an `abort()` somewhere below); `some (Except.error c)` is the failure
return with error code `c`; `some (Except.ok s)` is success. -/
def runBody : List SNENTITY → LoaderState → Option (Except ℤ LoaderState)
  | [], s => some (endChecks s)
  | e :: rest, s =>
    match e with
    | SNENTITY.eofEnt => some (endChecks s)
    | SNENTITY.err c => some (Except.error c)
    | SNENTITY.numeric text =>
        let i := parseNumber text
        if i < 0 then some (Except.error LM_ERR_NUMBER)
        else if s.stCount ≥ MAX_SN_STACK then some (Except.error LM_ERR_OVERFL)
        else runBody rest { s with
          st := fun j => if j = s.stCount then i.toNat else s.st j,
          stCount := s.stCount + 1 }
    | SNENTITY.operation name =>
        if name = "p" then
          if s.stCount < 4 then some (Except.error LM_ERR_UNDERF)
          else
            match op_p (s.st (s.stCount - 4)) (s.st (s.stCount - 3))
                (s.st (s.stCount - 2)) (s.st (s.stCount - 1))
                s.mesh s.ptsWritten with
            | none => none
            | some r =>
              match r.err with
              | some c => some (Except.error c)
              | none => runBody rest { s with
                  mesh := r.mesh, ptsWritten := r.ptsWritten,
                  stCount := s.stCount - 4 }
        else if name = "t" then
          if s.stCount < 3 then some (Except.error LM_ERR_UNDERF)
          else
            match op_t (s.st (s.stCount - 3)) (s.st (s.stCount - 2))
                (s.st (s.stCount - 1)) s.mesh s.ptsWritten s.trisWritten
                s.um with
            | none => none
            | some r =>
              match r.err with
              | some c => some (Except.error c)
              | none => runBody rest { s with
                  mesh := r.mesh, trisWritten := r.triWritten, um := r.um,
                  stCount := s.stCount - 3 }
        else some (Except.error LM_ERR_BADOP)
    | _ => some (Except.error LM_ERR_ETYPE)

/-- `lilac_mesh_new`: header, usage-map dimensioning, fresh zeroed mesh, then
the interpreter loop.  Returns the completed mesh on success. -/
def lilac_mesh_new (input : List SNENTITY) : Option (Except ℤ LILAC_MESH) :=
  match readHeader input with
  | Except.error c => some (Except.error c)
  | Except.ok (point_count, tri_count, rest) =>
    match usage_map_dim point_count with
    | none => none
    | some um =>
      let pM : LILAC_MESH :=
        ⟨fun _ => ⟨0, 0, 0, 0⟩, fun _ => 0, point_count, tri_count⟩
      let s0 : LoaderState := ⟨pM, 0, 0, um, fun _ => 0, 0⟩
      match runBody rest s0 with
      | none => none
      | some (Except.error c) => some (Except.error c)
      | some (Except.ok s) => some (Except.ok s.mesh)

/-- The loop invariant of the loader body: stack entries are in coordinate
range, the written counters are within the declared counts, the usage map is
dimensioned to the mesh's point count, every written triangle entry refers to
an already-written point, consecutive written triangles are strictly
ascending by `(v1, v2)`, every marked point bit comes from a written
triangle, and the bitmap words are 32-bit values. -/
structure LoaderInv (s : LoaderState) : Prop where
  stack_le : ∀ j, s.st j ≤ LILAC_MESH_MAX_C
  pts_le : s.ptsWritten ≤ s.mesh.point_count
  pc_eq : s.um.point_count = s.mesh.point_count
  pc_max : s.mesh.point_count ≤ LILAC_MESH_MAX_POINTS
  tris_le : s.trisWritten ≤ s.mesh.tri_count
  tri_idx : ∀ k, k < s.trisWritten → ∀ e, e < 3 →
    s.mesh.pTris (k * 3 + e) < s.ptsWritten
  sorted : ∀ k, k + 1 < s.trisWritten →
    s.mesh.pTris (k * 3) < s.mesh.pTris ((k + 1) * 3) ∨
    (s.mesh.pTris (k * 3) = s.mesh.pTris ((k + 1) * 3) ∧
     s.mesh.pTris (k * 3 + 1) < s.mesh.pTris ((k + 1) * 3 + 1))
  marked_tri : ∀ j, pointBit s.um j = true →
    ∃ k, k < s.trisWritten ∧ ∃ e, e < 3 ∧ s.mesh.pTris (k * 3 + e) = j
  words_lt : ∀ w, s.um.pPointUse w < 2 ^ 32

lemma endChecks_ok (s s2 : LoaderState) (h : endChecks s = Except.ok s2) :
    s2 = s ∧ s.ptsWritten = s.mesh.point_count ∧
    s.trisWritten = s.mesh.tri_count ∧ usage_map_orphan s.um = false := by
  unfold endChecks at h
  by_cases h1 : s.stCount > 0
  · rw [if_pos h1] at h; exact Except.noConfusion h
  rw [if_neg h1] at h
  by_cases h2 : s.ptsWritten ≠ s.mesh.point_count
  · rw [if_pos h2] at h; exact Except.noConfusion h
  rw [if_neg h2] at h
  by_cases h3 : s.trisWritten ≠ s.mesh.tri_count
  · rw [if_pos h3] at h; exact Except.noConfusion h
  rw [if_neg h3] at h
  by_cases h4 : usage_map_orphan s.um = true
  · rw [if_pos h4] at h; exact Except.noConfusion h
  rw [if_neg h4] at h
  refine ⟨(Except.ok.inj h).symm, by omega, by omega, ?_⟩
  exact Bool.not_eq_true _ ▸ (by simpa using h4)

/-- Soundness of the loader body loop: starting from any invariant state it
never faults, and when it succeeds the final state satisfies the invariant
together with the end-of-input conditions (all points and triangles written,
no orphan points). -/
lemma runBody_sound (ents : List SNENTITY) (s : LoaderState)
    (hinv : LoaderInv s) :
    ∃ res, runBody ents s = some res ∧
      ∀ s2, res = Except.ok s2 →
        LoaderInv s2 ∧ s2.ptsWritten = s2.mesh.point_count ∧
        s2.trisWritten = s2.mesh.tri_count ∧
        usage_map_orphan s2.um = false := by
  induction ents generalizing s with
  | nil =>
      refine ⟨endChecks s, rfl, fun s2 h => ?_⟩
      obtain ⟨rfl, hp, ht, ho⟩ := endChecks_ok s s2 h
      exact ⟨hinv, hp, ht, ho⟩
  | cons e rest ih =>
      cases e with
      | eofEnt =>
          refine ⟨endChecks s, rfl, fun s2 h => ?_⟩
          obtain ⟨rfl, hp, ht, ho⟩ := endChecks_ok s s2 h
          exact ⟨hinv, hp, ht, ho⟩
      | err c => exact ⟨Except.error c, rfl, fun s2 h => Except.noConfusion h⟩
      | beginMeta =>
          exact ⟨Except.error LM_ERR_ETYPE, rfl,
            fun s2 h => Except.noConfusion h⟩
      | endMeta =>
          exact ⟨Except.error LM_ERR_ETYPE, rfl,
            fun s2 h => Except.noConfusion h⟩
      | metaToken text =>
          exact ⟨Except.error LM_ERR_ETYPE, rfl,
            fun s2 h => Except.noConfusion h⟩
      | numeric text =>
          by_cases hneg : parseNumber text < 0
          · refine ⟨Except.error LM_ERR_NUMBER, ?_,
              fun s2 h => Except.noConfusion h⟩
            simp only [runBody, if_pos hneg]
          by_cases hfull : s.stCount ≥ MAX_SN_STACK
          · refine ⟨Except.error LM_ERR_OVERFL, ?_,
              fun s2 h => Except.noConfusion h⟩
            simp only [runBody, if_neg hneg, if_pos hfull]
          have hle : (parseNumber text).toNat ≤ LILAC_MESH_MAX_C := by
            rcases parseNumber_range text with hr1 | hr2
            · omega
            · unfold LILAC_MESH_MAX_C; omega
          have hinv2 : LoaderInv { s with
              st := fun j =>
                if j = s.stCount then (parseNumber text).toNat else s.st j,
              stCount := s.stCount + 1 } := by
            refine ⟨?_, hinv.pts_le, hinv.pc_eq, hinv.pc_max, hinv.tris_le,
              hinv.tri_idx, hinv.sorted, hinv.marked_tri, hinv.words_lt⟩
            intro j
            show (if j = s.stCount then (parseNumber text).toNat else s.st j)
              ≤ LILAC_MESH_MAX_C
            by_cases hj : j = s.stCount
            · rw [if_pos hj]; exact hle
            · rw [if_neg hj]; exact hinv.stack_le j
          obtain ⟨res, hres, hok⟩ := ih _ hinv2
          refine ⟨res, ?_, hok⟩
          rw [← hres]
          simp only [runBody, if_neg hneg, if_neg hfull]
      | operation name =>
          by_cases hp : name = "p"
          · by_cases hund : s.stCount < 4
            · refine ⟨Except.error LM_ERR_UNDERF, ?_,
                fun s2 h => Except.noConfusion h⟩
              simp only [runBody, if_pos hp, if_pos hund]
            obtain ⟨r, hr, hdisj⟩ := op_p_cases
              (s.st (s.stCount - 4)) (s.st (s.stCount - 3))
              (s.st (s.stCount - 2)) (s.st (s.stCount - 1))
              s.mesh s.ptsWritten
              (hinv.stack_le _) (hinv.stack_le _)
              (hinv.stack_le _) (hinv.stack_le _)
            cases herr : r.err with
            | some c =>
                refine ⟨Except.error c, ?_, fun s2 h => Except.noConfusion h⟩
                simp only [runBody, if_pos hp, if_neg hund, hr, herr]
            | none =>
                rcases hdisj with ⟨-, hlt, hpw, hmpc, hmtc, hmtris, hmpts⟩
                  | ⟨e2, he2, -, -⟩
                · have hinv2 : LoaderInv { s with
                      mesh := r.mesh, ptsWritten := r.ptsWritten,
                      stCount := s.stCount - 4 } := by
                    refine ⟨hinv.stack_le, ?_, ?_, ?_, ?_, ?_, ?_, ?_,
                      hinv.words_lt⟩
                    · show r.ptsWritten ≤ r.mesh.point_count
                      omega
                    · show s.um.point_count = r.mesh.point_count
                      rw [hmpc]; exact hinv.pc_eq
                    · show r.mesh.point_count ≤ LILAC_MESH_MAX_POINTS
                      rw [hmpc]; exact hinv.pc_max
                    · show s.trisWritten ≤ r.mesh.tri_count
                      rw [hmtc]; exact hinv.tris_le
                    · intro k hk e he
                      have hk2 : k < s.trisWritten := hk
                      show r.mesh.pTris (k * 3 + e) < r.ptsWritten
                      rw [hmtris, hpw]
                      exact lt_trans (hinv.tri_idx k hk2 e he) (by omega)
                    · intro k hk
                      have hk2 : k + 1 < s.trisWritten := hk
                      show r.mesh.pTris (k * 3) < r.mesh.pTris ((k + 1) * 3) ∨
                        (r.mesh.pTris (k * 3) = r.mesh.pTris ((k + 1) * 3) ∧
                         r.mesh.pTris (k * 3 + 1) <
                           r.mesh.pTris ((k + 1) * 3 + 1))
                      rw [hmtris]
                      exact hinv.sorted k hk2
                    · intro j hj
                      have hj2 : pointBit s.um j = true := hj
                      obtain ⟨k, hk, e, he, hje⟩ := hinv.marked_tri j hj2
                      refine ⟨k, hk, e, he, ?_⟩
                      show r.mesh.pTris (k * 3 + e) = j
                      rw [hmtris]; exact hje
                  obtain ⟨res, hres, hok⟩ := ih _ hinv2
                  refine ⟨res, ?_, hok⟩
                  rw [← hres]
                  simp only [runBody, if_pos hp, if_neg hund, hr, herr]
                · rw [herr] at he2; exact Option.noConfusion he2
          by_cases ht : name = "t"
          · by_cases hund : s.stCount < 3
            · refine ⟨Except.error LM_ERR_UNDERF, ?_,
                fun s2 h => Except.noConfusion h⟩
              simp only [runBody, if_neg hp, if_pos ht, if_pos hund]
            obtain ⟨r, hr, hupc, huw, hdisj⟩ := op_t_cases
              (s.st (s.stCount - 3)) (s.st (s.stCount - 2))
              (s.st (s.stCount - 1)) s.mesh s.ptsWritten s.trisWritten s.um
              (hinv.stack_le _) (hinv.stack_le _) (hinv.stack_le _)
              (le_trans hinv.pts_le hinv.pc_max)
              (hinv.pc_eq ▸ hinv.pts_le)
            cases herr : r.err with
            | some c =>
                refine ⟨Except.error c, ?_, fun s2 h => Except.noConfusion h⟩
                simp only [runBody, if_neg hp, if_pos ht, if_neg hund, hr,
                  herr]
            | none =>
                rcases hdisj with ⟨-, hv1, hv2, hv3, -, -, -, hcap, hprev,
                    htw, hmpc, hmtc, -, htris, hbits⟩
                  | ⟨e2, he2, -, -, -⟩
                · have hinv2 : LoaderInv { s with
                      mesh := r.mesh, trisWritten := r.triWritten,
                      um := r.um, stCount := s.stCount - 3 } := by
                    refine ⟨hinv.stack_le, ?_, ?_, ?_, ?_, ?_, ?_, ?_, ?_⟩
                    · show s.ptsWritten ≤ r.mesh.point_count
                      rw [hmpc]; exact hinv.pts_le
                    · show r.um.point_count = r.mesh.point_count
                      rw [hupc, hmpc]; exact hinv.pc_eq
                    · show r.mesh.point_count ≤ LILAC_MESH_MAX_POINTS
                      rw [hmpc]; exact hinv.pc_max
                    · show r.triWritten ≤ r.mesh.tri_count
                      rw [htw, hmtc]; omega
                    · intro k hk e he
                      have hk2 : k < r.triWritten := hk
                      rw [htw] at hk2
                      show r.mesh.pTris (k * 3 + e) < s.ptsWritten
                      rw [htris]
                      by_cases hklt : k < s.trisWritten
                      · rw [if_neg (by omega), if_neg (by omega),
                          if_neg (by omega)]
                        exact hinv.tri_idx k hklt e he
                      · have hkeq : k = s.trisWritten := by omega
                        subst hkeq
                        have he3 : e = 0 ∨ e = 1 ∨ e = 2 := by omega
                        rcases he3 with rfl | rfl | rfl
                        · rw [if_pos (by omega)]; exact hv1
                        · rw [if_neg (by omega), if_pos (by omega)]
                          exact hv2
                        · rw [if_neg (by omega), if_neg (by omega),
                            if_pos (by omega)]
                          exact hv3
                    · intro k hk
                      have hk2 : k + 1 < r.triWritten := hk
                      rw [htw] at hk2
                      show r.mesh.pTris (k * 3) < r.mesh.pTris ((k + 1) * 3) ∨
                        (r.mesh.pTris (k * 3) = r.mesh.pTris ((k + 1) * 3) ∧
                         r.mesh.pTris (k * 3 + 1) <
                           r.mesh.pTris ((k + 1) * 3 + 1))
                      by_cases hklt : k + 1 < s.trisWritten
                      · have hA : r.mesh.pTris (k * 3)
                            = s.mesh.pTris (k * 3) := by
                          rw [htris, if_neg (by omega), if_neg (by omega),
                            if_neg (by omega)]
                        have hA1 : r.mesh.pTris (k * 3 + 1)
                            = s.mesh.pTris (k * 3 + 1) := by
                          rw [htris, if_neg (by omega), if_neg (by omega),
                            if_neg (by omega)]
                        have hB : r.mesh.pTris ((k + 1) * 3)
                            = s.mesh.pTris ((k + 1) * 3) := by
                          rw [htris, if_neg (by omega), if_neg (by omega),
                            if_neg (by omega)]
                        have hB1 : r.mesh.pTris ((k + 1) * 3 + 1)
                            = s.mesh.pTris ((k + 1) * 3 + 1) := by
                          rw [htris, if_neg (by omega), if_neg (by omega),
                            if_neg (by omega)]
                        rw [hA, hA1, hB, hB1]
                        exact hinv.sorted k hklt
                      · have hkeq : k + 1 = s.trisWritten := by omega
                        have htw0 : s.trisWritten > 0 := by omega
                        have hA : r.mesh.pTris (k * 3)
                            = s.mesh.pTris (k * 3) := by
                          rw [htris, if_neg (by omega), if_neg (by omega),
                            if_neg (by omega)]
                        have hA1 : r.mesh.pTris (k * 3 + 1)
                            = s.mesh.pTris (k * 3 + 1) := by
                          rw [htris, if_neg (by omega), if_neg (by omega),
                            if_neg (by omega)]
                        have hB : r.mesh.pTris ((k + 1) * 3)
                            = s.st (s.stCount - 3) := by
                          rw [htris, if_pos (by omega)]
                        have hB1 : r.mesh.pTris ((k + 1) * 3 + 1)
                            = s.st (s.stCount - 2) := by
                          rw [htris, if_neg (by omega), if_pos (by omega)]
                        rw [hA, hA1, hB, hB1]
                        have hp2 := hprev htw0
                        have hsub : (s.trisWritten - 1) * 3 = k * 3 := by
                          omega
                        rw [hsub] at hp2
                        exact hp2
                    · intro j hj
                      have hj2 : pointBit r.um j = true := hj
                      rw [hbits j] at hj2
                      simp only [Bool.or_eq_true, decide_eq_true_eq] at hj2
                      show ∃ k, k < r.triWritten ∧ ∃ e, e < 3 ∧
                        r.mesh.pTris (k * 3 + e) = j
                      rw [htw]
                      rcases hj2 with ((hold | rfl) | rfl) | rfl
                      · obtain ⟨k, hk, e, he, hje⟩ := hinv.marked_tri j hold
                        refine ⟨k, by omega, e, he, ?_⟩
                        rw [htris]
                        rw [if_neg (by omega), if_neg (by omega),
                          if_neg (by omega)]
                        exact hje
                      · refine ⟨s.trisWritten, by omega, 0, by omega, ?_⟩
                        rw [htris, if_pos (by omega)]
                      · refine ⟨s.trisWritten, by omega, 1, by omega, ?_⟩
                        rw [htris, if_neg (by omega), if_pos (by omega)]
                      · refine ⟨s.trisWritten, by omega, 2, by omega, ?_⟩
                        rw [htris, if_neg (by omega), if_neg (by omega),
                          if_pos (by omega)]
                    · intro w
                      exact huw w (hinv.words_lt w)
                  obtain ⟨res, hres, hok⟩ := ih _ hinv2
                  refine ⟨res, ?_, hok⟩
                  rw [← hres]
                  simp only [runBody, if_neg hp, if_pos ht, if_neg hund, hr,
                    herr]
                · rw [herr] at he2; exact Option.noConfusion he2
          refine ⟨Except.error LM_ERR_BADOP, ?_,
            fun s2 h => Except.noConfusion h⟩
          simp only [runBody, if_neg hp, if_neg ht]

lemma readHeader_bounds (l : List SNENTITY) (pc tc : ℕ)
    (rest : List SNENTITY) (h : readHeader l = Except.ok (pc, tc, rest)) :
    pc ≤ LILAC_MESH_MAX_POINTS ∧ tc ≤ LILAC_MESH_MAX_TRIS := by
  unfold readHeader at h
  repeat' split at h
  all_goals try exact Except.noConfusion h
  injection h with h2
  rw [Prod.mk.injEq] at h2
  obtain ⟨hpc, h3⟩ := h2
  rw [Prod.mk.injEq] at h3
  obtain ⟨htc, -⟩ := h3
  unfold LILAC_MESH_MAX_POINTS LILAC_MESH_MAX_TRIS at *
  omega

lemma initial_inv (pc tc : ℕ) (hpc : pc ≤ LILAC_MESH_MAX_POINTS) :
    LoaderInv ⟨⟨fun _ => ⟨0, 0, 0, 0⟩, fun _ => 0, pc, tc⟩, 0, 0,
      ⟨fun _ => 0, fun _ => 0, pc⟩, fun _ => 0, 0⟩ := by
  refine ⟨fun j => ?_, ?_, rfl, hpc, ?_, ?_, ?_, ?_, ?_⟩
  · show (0 : ℕ) ≤ LILAC_MESH_MAX_C
    unfold LILAC_MESH_MAX_C; omega
  · show (0 : ℕ) ≤ pc; omega
  · show (0 : ℕ) ≤ tc; omega
  · intro k hk e he
    have hk2 : k < (0 : ℕ) := hk
    exact absurd hk2 (by omega)
  · intro k hk
    have hk2 : k + 1 < (0 : ℕ) := hk
    exact absurd hk2 (by omega)
  · intro j hj
    exfalso
    have hz : pointBit ⟨fun _ => 0, fun _ => 0, pc⟩ j = false := by
      unfold pointBit; exact Nat.zero_testBit _
    rw [hz] at hj
    exact Bool.noConfusion hj
  · intro w; show (0 : ℕ) < 2 ^ 32; positivity

/-- Extraction of the final loader state from a successful `lilac_mesh_new`:
the returned mesh comes from an invariant state in which all points and
triangles were written and no orphans remain. -/
lemma lilac_mesh_new_ok_inv (input : List SNENTITY) (m : LILAC_MESH)
    (h : lilac_mesh_new input = some (Except.ok m)) :
    ∃ s2 : LoaderState, m = s2.mesh ∧ LoaderInv s2 ∧
      s2.ptsWritten = s2.mesh.point_count ∧
      s2.trisWritten = s2.mesh.tri_count ∧
      usage_map_orphan s2.um = false := by
  unfold lilac_mesh_new at h
  cases hh : readHeader input with
  | error c => rw [hh] at h; simp at h
  | ok t =>
    obtain ⟨pc, tc, rest⟩ := t
    obtain ⟨hbp, hbt⟩ := readHeader_bounds input pc tc rest hh
    have hdim : usage_map_dim pc = some ⟨fun _ => 0, fun _ => 0, pc⟩ := by
      rw [usage_map_dim, if_neg (not_lt.mpr hbp)]
    rw [hh] at h
    simp only [hdim] at h
    obtain ⟨res, hres, hok⟩ := runBody_sound rest
      ⟨⟨fun _ => ⟨0, 0, 0, 0⟩, fun _ => 0, pc, tc⟩, 0, 0,
        ⟨fun _ => 0, fun _ => 0, pc⟩, fun _ => 0, 0⟩
      (initial_inv pc tc hbp)
    simp only [hres] at h
    cases res with
    | error c => simp at h
    | ok s2 =>
        obtain ⟨hinv2, hp2, ht2, ho2⟩ := hok s2 rfl
        refine ⟨s2, ?_, hinv2, hp2, ht2, ho2⟩
        simpa using h.symm

/-- **C10.** The loader never faults: for every input entity stream,
`lilac_mesh_new` returns a result (mesh or error code) rather than hitting an
`abort()`.  In particular `usage_map_edge` and `usage_map_point` are only
invoked with indices in `[0, point_count)` (guaranteed by the PTREF and
PTOVER checks), so their abort branches are unreachable. -/
theorem lilac_mesh_new_no_fault (input : List SNENTITY) :
    (lilac_mesh_new input).isSome = true := by
  unfold lilac_mesh_new
  cases hh : readHeader input with
  | error c => rfl
  | ok t =>
    obtain ⟨pc, tc, rest⟩ := t
    obtain ⟨hbp, hbt⟩ := readHeader_bounds input pc tc rest hh
    have hdim : usage_map_dim pc = some ⟨fun _ => 0, fun _ => 0, pc⟩ := by
      rw [usage_map_dim, if_neg (not_lt.mpr hbp)]
    simp only [hdim]
    obtain ⟨res, hres, -⟩ := runBody_sound rest
      ⟨⟨fun _ => ⟨0, 0, 0, 0⟩, fun _ => 0, pc, tc⟩, 0, 0,
        ⟨fun _ => 0, fun _ => 0, pc⟩, fun _ => 0, 0⟩
      (initial_inv pc tc hbp)
    simp only [hres]
    cases res <;> rfl

/-- **C1.** On every input for which `lilac_mesh_new` returns a mesh, the set
of point indices appearing across all triangles equals `[0, point_count)`:
every index below `point_count` occurs in some triangle, and every triangle
entry is below `point_count`. -/
theorem lilac_mesh_new_coverage (input : List SNENTITY) (m : LILAC_MESH)
    (h : lilac_mesh_new input = some (Except.ok m)) :
    (∀ j, j < m.point_count →
      ∃ k, k < m.tri_count ∧ ∃ e, e < 3 ∧ m.pTris (k * 3 + e) = j) ∧
    (∀ k, k < m.tri_count → ∀ e, e < 3 →
      m.pTris (k * 3 + e) < m.point_count) := by
  obtain ⟨s2, rfl, hinv, hpts, htris, horph⟩ := lilac_mesh_new_ok_inv input m h
  constructor
  · intro j hj
    have hbit : pointBit s2.um j = true := by
      by_contra hne
      have hbf : pointBit s2.um j = false := by
        cases hb : pointBit s2.um j
        · rfl
        · exact absurd hb hne
      have ho : usage_map_orphan s2.um = true :=
        (orphan_iff s2.um hinv.words_lt).mpr
          ⟨j, by rw [hinv.pc_eq]; exact hj, hbf⟩
      rw [ho] at horph
      exact Bool.noConfusion horph
    obtain ⟨k, hk, e, he, hje⟩ := hinv.marked_tri j hbit
    exact ⟨k, by omega, e, he, hje⟩
  · intro k hk e he
    have := hinv.tri_idx k (by omega) e he
    omega

/-- **C3.** On every input for which `lilac_mesh_new` returns a mesh, the
triangle array is sorted strictly ascending lexicographically by `(v1, v2)`
across all consecutive pairs — even though the loader compared each new
triangle only against the immediately preceding one. -/
theorem lilac_mesh_new_sorted (input : List SNENTITY) (m : LILAC_MESH)
    (h : lilac_mesh_new input = some (Except.ok m)) :
    ∀ k, k + 1 < m.tri_count →
      m.pTris (k * 3) < m.pTris ((k + 1) * 3) ∨
      (m.pTris (k * 3) = m.pTris ((k + 1) * 3) ∧
       m.pTris (k * 3 + 1) < m.pTris ((k + 1) * 3 + 1)) := by
  obtain ⟨s2, rfl, hinv, hpts, htris, horph⟩ := lilac_mesh_new_ok_inv input m h
  intro k hk
  exact hinv.sorted k (by omega)

/-- A concrete valid mesh file: three points and one counter-clockwise
triangle referencing all of them. -/
def inputTri : List SNENTITY :=
  [SNENTITY.beginMeta, SNENTITY.metaToken "lilac-mesh", SNENTITY.endMeta,
   SNENTITY.beginMeta, SNENTITY.metaToken "dim", SNENTITY.metaToken "3",
   SNENTITY.metaToken "1", SNENTITY.endMeta,
   SNENTITY.numeric "0", SNENTITY.numeric "0", SNENTITY.numeric "0",
   SNENTITY.numeric "0", SNENTITY.operation "p",
   SNENTITY.numeric "0", SNENTITY.numeric "0", SNENTITY.numeric "16384",
   SNENTITY.numeric "0", SNENTITY.operation "p",
   SNENTITY.numeric "0", SNENTITY.numeric "0", SNENTITY.numeric "0",
   SNENTITY.numeric "16384", SNENTITY.operation "p",
   SNENTITY.numeric "0", SNENTITY.numeric "1", SNENTITY.numeric "2",
   SNENTITY.operation "t"]

/-- The mesh the loader produces on `inputTri`. -/
def meshTri : LILAC_MESH :=
  match lilac_mesh_new inputTri with
  | some (Except.ok m) => m
  | _ => mesh0

/-- Witness for C1: the loader succeeds on `inputTri` and the coverage
property holds on the resulting mesh. -/
theorem lilac_mesh_new_coverage_witness :
    lilac_mesh_new inputTri = some (Except.ok meshTri) ∧
      ((∀ j, j < meshTri.point_count →
        ∃ k, k < meshTri.tri_count ∧ ∃ e, e < 3 ∧
          meshTri.pTris (k * 3 + e) = j) ∧
       (∀ k, k < meshTri.tri_count → ∀ e, e < 3 →
        meshTri.pTris (k * 3 + e) < meshTri.point_count)) :=
  ⟨rfl, lilac_mesh_new_coverage inputTri meshTri rfl⟩

/-- A concrete valid mesh file: the minimal two-triangle quad of the spec's
end-to-end scenario 1. -/
def inputQuad : List SNENTITY :=
  [SNENTITY.beginMeta, SNENTITY.metaToken "lilac-mesh", SNENTITY.endMeta,
   SNENTITY.beginMeta, SNENTITY.metaToken "dim", SNENTITY.metaToken "4",
   SNENTITY.metaToken "2", SNENTITY.endMeta,
   SNENTITY.numeric "0", SNENTITY.numeric "0", SNENTITY.numeric "0",
   SNENTITY.numeric "0", SNENTITY.operation "p",
   SNENTITY.numeric "0", SNENTITY.numeric "0", SNENTITY.numeric "16384",
   SNENTITY.numeric "0", SNENTITY.operation "p",
   SNENTITY.numeric "0", SNENTITY.numeric "0", SNENTITY.numeric "16384",
   SNENTITY.numeric "16384", SNENTITY.operation "p",
   SNENTITY.numeric "0", SNENTITY.numeric "0", SNENTITY.numeric "0",
   SNENTITY.numeric "16384", SNENTITY.operation "p",
   SNENTITY.numeric "0", SNENTITY.numeric "1", SNENTITY.numeric "2",
   SNENTITY.operation "t",
   SNENTITY.numeric "0", SNENTITY.numeric "2", SNENTITY.numeric "3",
   SNENTITY.operation "t"]

/-- The mesh the loader produces on `inputQuad`. -/
def meshQuad : LILAC_MESH :=
  match lilac_mesh_new inputQuad with
  | some (Except.ok m) => m
  | _ => mesh0

/-- Witness for C3: the loader succeeds on the two-triangle quad and the
resulting triangle array is strictly sorted by `(v1, v2)`. -/
theorem lilac_mesh_new_sorted_witness :
    lilac_mesh_new inputQuad = some (Except.ok meshQuad) ∧
      ∀ k, k + 1 < meshQuad.tri_count →
        meshQuad.pTris (k * 3) < meshQuad.pTris ((k + 1) * 3) ∨
        (meshQuad.pTris (k * 3) = meshQuad.pTris ((k + 1) * 3) ∧
         meshQuad.pTris (k * 3 + 1) < meshQuad.pTris ((k + 1) * 3 + 1)) :=
  ⟨rfl, lilac_mesh_new_sorted inputQuad meshQuad rfl⟩

/-! ## Rasterizer: vertexColor and renderSpan (lilacme2png.c)

The pixel buffer is a function from pixel index (`y * m_w + x`) to packed
32-bit ARGB values.  Vertex attribute arithmetic is `float`/`double` in C;
it is modelled over `ℚ`: the properties verified here (alpha always `0xFF`,
channels clamped into `[1, 255]`, mask pixels never overwritten) depend only
on the floor/clamp structure, which is the same for any ordered-field
arithmetic.  The interpolation `ivec_atX` that produces the vertex sampled
at each pixel is abstracted as a function `vtxAt` from the pixel column to
the sampled vertex; `renderSpan` is modelled around it exactly as the C
writes `vertexColor` of the `ivec_atX` result. -/

structure VERTEX where
  x : ℚ
  y : ℚ
  v : ℚ
  vx : ℚ
  vy : ℚ
  vz : ℚ

def INTER_UNDEF : ℕ := 0
def INTER_SCALAR : ℕ := 1
def INTER_VECTOR : ℕ := 2

/-- The final integer clamp of a channel in `vertexColor` (lines 578-585):
clamp to `[1, 255]`. -/
def clampChan (gi : ℕ) : ℕ :=
  if gi > 255 then 255 else if gi < 1 then 1 else gi

/-- The float-level guard `if (!(gf >= 1.0f)) gf = 1.0f` of `vertexColor`. -/
def forceOne (gf : ℤ) : ℤ := if gf ≥ 1 then gf else 1

/-- One colour channel of `vertexColor`:
`floor((((v + 1) / 2) * 254) + 1)`, forced `≥ 1`, converted to an unsigned
integer, clamped into `[1, 255]`.  (`Rat.floor` is the mathematical floor,
`Rat.floor_intCast_eq_self`-style; it is used instead of `⌊⌋` so that the
definition evaluates by kernel reduction.) -/
def chanOf (v : ℚ) : ℕ :=
  clampChan (forceOne (Rat.floor (((v + 1) / 2) * 254 + 1))).toNat

/-- `vertexColor` (lines 553-639): packed ARGB with alpha `0xFF`; grayscale
from `v` in scalar mode, per-channel from `(vx, vy, vz)` in vector mode;
`raiseErr` (modelled `none`) when the mode is unset. -/
def vertexColor (m_inter : ℕ) (pv : VERTEX) : Option ℕ :=
  if m_inter = INTER_SCALAR then
    some (0xff000000 ||| (chanOf pv.v <<< 16) ||| (chanOf pv.v <<< 8) |||
      chanOf pv.v)
  else if m_inter = INTER_VECTOR then
    some (0xff000000 ||| (chanOf pv.vx <<< 16) ||| (chanOf pv.vy <<< 8) |||
      chanOf pv.vz)
  else none

lemma clampChan_bounds (gi : ℕ) : 1 ≤ clampChan gi ∧ clampChan gi ≤ 255 := by
  unfold clampChan
  by_cases h1 : gi > 255
  · rw [if_pos h1]; omega
  rw [if_neg h1]
  by_cases h2 : gi < 1
  · rw [if_pos h2]; omega
  rw [if_neg h2]; omega

lemma chanOf_bounds (v : ℚ) : 1 ≤ chanOf v ∧ chanOf v ≤ 255 :=
  clampChan_bounds _

/-- Packing disjoint byte fields with OR equals the positional sum. -/
lemma packColor_eq (r g b : ℕ) (hr : r ≤ 255) (hg : g ≤ 255)
    (hb : b ≤ 255) :
    0xff000000 ||| (r <<< 16) ||| (g <<< 8) ||| b
      = 2 ^ 24 * 255 + 2 ^ 16 * r + 2 ^ 8 * g + b := by
  have hBlt : r * 2 ^ 16 < 2 ^ 24 :=
    lt_of_le_of_lt (Nat.mul_le_mul_right _ hr) (by norm_num)
  have hClt : g * 2 ^ 8 < 2 ^ 16 :=
    lt_of_le_of_lt (Nat.mul_le_mul_right _ hg) (by norm_num)
  have hDlt : b < 2 ^ 8 := by omega
  have e1 : (0xff000000 : ℕ) ||| (r <<< 16) = 2 ^ 16 * (2 ^ 8 * 255 + r) := by
    rw [Nat.shiftLeft_eq]
    have h255 : (0xff000000 : ℕ) = 2 ^ 24 * 255 := by norm_num
    rw [h255, ← Nat.mul_add_lt_is_or hBlt 255]
    ring
  have e2 : 2 ^ 16 * (2 ^ 8 * 255 + r) ||| (g <<< 8)
      = 2 ^ 8 * (2 ^ 8 * (2 ^ 8 * 255 + r) + g) := by
    rw [Nat.shiftLeft_eq, ← Nat.mul_add_lt_is_or hClt (2 ^ 8 * 255 + r)]
    ring
  have e3 : 2 ^ 8 * (2 ^ 8 * (2 ^ 8 * 255 + r) + g) ||| b
      = 2 ^ 8 * (2 ^ 8 * (2 ^ 8 * 255 + r) + g) + b :=
    (Nat.mul_add_lt_is_or hDlt _).symm
  rw [e1, e2, e3]
  ring

/-- The channel/alpha content of a packed colour. -/
lemma packColor_fields (r g b : ℕ) (hr1 : 1 ≤ r) (hr : r ≤ 255)
    (hg1 : 1 ≤ g) (hg : g ≤ 255) (hb1 : 1 ≤ b) (hb : b ≤ 255) :
    (2 ^ 24 * 255 + 2 ^ 16 * r + 2 ^ 8 * g + b) / 2 ^ 24 = 255 ∧
    (2 ^ 24 * 255 + 2 ^ 16 * r + 2 ^ 8 * g + b) / 2 ^ 16 % 2 ^ 8 = r ∧
    (2 ^ 24 * 255 + 2 ^ 16 * r + 2 ^ 8 * g + b) / 2 ^ 8 % 2 ^ 8 = g ∧
    (2 ^ 24 * 255 + 2 ^ 16 * r + 2 ^ 8 * g + b) % 2 ^ 8 = b ∧
    (2 ^ 24 * 255 + 2 ^ 16 * r + 2 ^ 8 * g + b) ≠ 0xff000000 := by
  have h24 : (2 : ℕ) ^ 24 = 16777216 := by norm_num
  have h16 : (2 : ℕ) ^ 16 = 65536 := by norm_num
  have h8 : (2 : ℕ) ^ 8 = 256 := by norm_num
  rw [h24, h16, h8]
  have hsent : (0xff000000 : ℕ) = 16777216 * 255 := by norm_num
  rw [hsent]
  omega

/-- Every colour `vertexColor` produces has alpha `0xFF`, all three channels
in `[1, 255]`, and in particular is not the mask sentinel. -/
lemma vertexColor_spec (m_inter : ℕ) (pv : VERTEX)
    (hm : m_inter = INTER_SCALAR ∨ m_inter = INTER_VECTOR) :
    ∃ c, vertexColor m_inter pv = some c ∧
      c / 2 ^ 24 = 255 ∧
      (1 ≤ c / 2 ^ 16 % 2 ^ 8 ∧ c / 2 ^ 16 % 2 ^ 8 ≤ 255) ∧
      (1 ≤ c / 2 ^ 8 % 2 ^ 8 ∧ c / 2 ^ 8 % 2 ^ 8 ≤ 255) ∧
      (1 ≤ c % 2 ^ 8 ∧ c % 2 ^ 8 ≤ 255) ∧
      c ≠ 0xff000000 := by
  rcases hm with hm | hm
  · refine ⟨_, by rw [vertexColor, if_pos hm], ?_⟩
    obtain ⟨h1, h2⟩ := chanOf_bounds pv.v
    rw [packColor_eq _ _ _ h2 h2 h2]
    obtain ⟨f1, f2, f3, f4, f5⟩ :=
      packColor_fields _ _ _ h1 h2 h1 h2 h1 h2
    rw [f1, f2, f3, f4]
    exact ⟨rfl, ⟨h1, h2⟩, ⟨h1, h2⟩, ⟨h1, h2⟩, f5⟩
  · have hns : ¬ (m_inter = INTER_SCALAR) := by
      rw [hm]; unfold INTER_SCALAR INTER_VECTOR; omega
    refine ⟨_, by rw [vertexColor, if_neg hns, if_pos hm], ?_⟩
    obtain ⟨hr1, hr2⟩ := chanOf_bounds pv.vx
    obtain ⟨hg1, hg2⟩ := chanOf_bounds pv.vy
    obtain ⟨hb1, hb2⟩ := chanOf_bounds pv.vz
    rw [packColor_eq _ _ _ hr2 hg2 hb2]
    obtain ⟨f1, f2, f3, f4, f5⟩ :=
      packColor_fields _ _ _ hr1 hr2 hg1 hg2 hb1 hb2
    rw [f1, f2, f3, f4]
    exact ⟨rfl, ⟨hr1, hr2⟩, ⟨hg1, hg2⟩, ⟨hb1, hb2⟩, f5⟩

lemma vertexColor_ne_sentinel (m_inter : ℕ) (pv : VERTEX) (c : ℕ)
    (h : vertexColor m_inter pv = some c) : c ≠ 0xff000000 := by
  unfold vertexColor at h
  by_cases h1 : m_inter = INTER_SCALAR
  · rw [if_pos h1] at h
    obtain rfl := (Option.some.inj h).symm
    obtain ⟨hc1, hc2⟩ := chanOf_bounds pv.v
    rw [packColor_eq _ _ _ hc2 hc2 hc2]
    exact (packColor_fields _ _ _ hc1 hc2 hc1 hc2 hc1 hc2).2.2.2.2
  rw [if_neg h1] at h
  by_cases h2 : m_inter = INTER_VECTOR
  · rw [if_pos h2] at h
    obtain rfl := (Option.some.inj h).symm
    obtain ⟨hr1, hr2⟩ := chanOf_bounds pv.vx
    obtain ⟨hg1, hg2⟩ := chanOf_bounds pv.vy
    obtain ⟨hb1, hb2⟩ := chanOf_bounds pv.vz
    rw [packColor_eq _ _ _ hr2 hg2 hb2]
    exact (packColor_fields _ _ _ hr1 hr2 hg1 hg2 hb1 hb2).2.2.2.2
  rw [if_neg h2] at h
  exact Option.noConfusion h

/-- `ifloor` (lilacme2png.c lines 440-459): floor, with a fault when the
result leaves `int32_t` range.  (The finiteness check is vacuous over `ℚ`.) -/
def ifloor (f : ℚ) : Option ℤ :=
  if Rat.floor f ≥ -(2 ^ 31) ∧ Rat.floor f ≤ 2 ^ 31 - 1
  then some (Rat.floor f) else none

/-- `iinc` (lines 472-478): increment with an overflow fault. -/
def iinc (v : ℤ) : Option ℤ :=
  if v ≥ 2 ^ 31 - 1 then none else some (v + 1)

/-- `idec` (lines 491-497): decrement with an overflow fault. -/
def idec (v : ℤ) : Option ℤ :=
  if v ≤ -(2 ^ 31) then none else some (v - 1)

/-- The pixel loop of `renderSpan` (lines 1336-1350): `n` pixels starting at
column `x` on scanline `y`; a pixel holding the mask sentinel `0xFF000000`
is skipped, otherwise the colour of the vertex interpolated at the pixel's
centre is stored.  (After clipping, `x` stays below `w ≤ 16384`, so the
`iinc` overflow fault cannot fire; the loop is by remaining count.) -/
def spanLoop (m_inter : ℕ) (vtxAt : ℕ → VERTEX) (w y : ℕ) :
    ℕ → ℕ → (ℕ → ℕ) → Option (ℕ → ℕ)
  | _, 0, buf => some buf
  | x, n + 1, buf =>
      if buf (y * w + x) = 0xff000000 then
        spanLoop m_inter vtxAt w y (x + 1) n buf
      else
        match vertexColor m_inter (vtxAt x) with
        | none => none
        | some c =>
            spanLoop m_inter vtxAt w y (x + 1) n
              (fun q => if q = y * w + x then c else buf q)

/-- `renderSpan` (lines 1252-1351): order the endpoints by X, derive the
integer X range under the top-left rule, clip against the `w × h` buffer,
then run the pixel loop.  `vtxAt` abstracts `ivec_atX` on the interpolator
built from the two endpoints. -/
def renderSpan (m_inter : ℕ) (vtxAt : ℕ → VERTEX) (w h : ℕ)
    (v1 v2 : VERTEX) (buf : ℕ → ℕ) : Option (ℕ → ℕ) :=
  if v1.y ≠ v2.y then none
  else
    match ifloor (if v1.x ≤ v2.x then v1 else v2).y,
        ifloor (if v1.x ≤ v2.x then v1 else v2).x,
        ifloor (if v1.x ≤ v2.x then v2 else v1).x with
    | some y0, some xma, some xMa =>
      match (if (if v1.x ≤ v2.x then v1 else v2).x - xma > 1 / 2
          then iinc xma else some xma),
        (if (if v1.x ≤ v2.x then v2 else v1).x - xMa ≤ 1 / 2
          then idec xMa else some xMa) with
      | some xm1, some xM1 =>
          if xM1 < xm1 then some buf
          else if y0 < 0 ∨ y0 ≥ (h : ℤ) then some buf
          else if xM1 < 0 ∨ xm1 ≥ (w : ℤ) then some buf
          else
            spanLoop m_inter vtxAt w y0.toNat
              (if xm1 < 0 then 0 else xm1).toNat
              ((if xM1 ≥ (w : ℤ) then (w : ℤ) - 1 else xM1) -
                (if xm1 < 0 then 0 else xm1) + 1).toNat buf
      | _, _ => none
    | _, _, _ => none

/-- A `renderSpan` call's parameters, for rendering sequences of spans. -/
structure SpanCall where
  m_inter : ℕ
  vtxAt : ℕ → VERTEX
  v1 : VERTEX
  v2 : VERTEX

/-- A sequence of `renderSpan` calls against one pixel buffer. -/
def renderSpans (w h : ℕ) : List SpanCall → (ℕ → ℕ) → Option (ℕ → ℕ)
  | [], buf => some buf
  | sc :: rest, buf =>
      match renderSpan sc.m_inter sc.vtxAt w h sc.v1 sc.v2 buf with
      | none => none
      | some buf2 => renderSpans w h rest buf2

lemma spanLoop_mask (m_inter : ℕ) (vtxAt : ℕ → VERTEX) (w y : ℕ)
    (n : ℕ) :
    ∀ x buf buf2, spanLoop m_inter vtxAt w y x n buf = some buf2 →
      ∀ p, (buf2 p = 0xff000000 ↔ buf p = 0xff000000) := by
  induction n with
  | zero =>
      intro x buf buf2 h p
      obtain rfl := (Option.some.inj h).symm
      exact Iff.rfl
  | succ n ih =>
      intro x buf buf2 h p
      by_cases hmask : buf (y * w + x) = 0xff000000
      · rw [spanLoop, if_pos hmask] at h
        exact ih (x + 1) buf buf2 h p
      · rw [spanLoop, if_neg hmask] at h
        cases hc : vertexColor m_inter (vtxAt x) with
        | none => rw [hc] at h; exact Option.noConfusion h
        | some c =>
            rw [hc] at h
            have hne := vertexColor_ne_sentinel m_inter (vtxAt x) c hc
            have hstep := ih (x + 1) _ buf2 h p
            rw [hstep]
            by_cases hp : p = y * w + x
            · rw [if_pos hp, hp]
              constructor
              · intro hcs; exact absurd hcs hne
              · intro hbs; exact absurd hbs hmask
            · rw [if_neg hp]

lemma renderSpan_mask (m_inter : ℕ) (vtxAt : ℕ → VERTEX) (w h : ℕ)
    (v1 v2 : VERTEX) (buf buf2 : ℕ → ℕ)
    (hr : renderSpan m_inter vtxAt w h v1 v2 buf = some buf2) :
    ∀ p, (buf2 p = 0xff000000 ↔ buf p = 0xff000000) := by
  unfold renderSpan at hr
  repeat' split at hr
  all_goals try exact Option.noConfusion hr
  all_goals try exact fun p => by rw [(Option.some.inj hr).symm]
  all_goals exact spanLoop_mask _ _ _ _ _ _ _ _ hr

/-- **C4.** Masked pixels are preserved through rasterization: for every
buffer state and every sequence of `renderSpan` calls that completes, a
pixel holds the mask sentinel `0xFF000000` afterwards iff it held it
before; and `vertexColor` (in both defined modes) always returns a colour
with alpha `0xFF` and each of R, G, B in `[1, 255]`, so the sentinel value
is never newly written. -/
theorem renderSpan_mask_preserved :
    (∀ w h calls buf buf2,
      renderSpans w h calls buf = some buf2 →
      ∀ p, (buf2 p = 0xff000000 ↔ buf p = 0xff000000)) ∧
    (∀ m_inter pv, (m_inter = INTER_SCALAR ∨ m_inter = INTER_VECTOR) →
      ∃ c, vertexColor m_inter pv = some c ∧
        c / 2 ^ 24 = 255 ∧
        (1 ≤ c / 2 ^ 16 % 2 ^ 8 ∧ c / 2 ^ 16 % 2 ^ 8 ≤ 255) ∧
        (1 ≤ c / 2 ^ 8 % 2 ^ 8 ∧ c / 2 ^ 8 % 2 ^ 8 ≤ 255) ∧
        (1 ≤ c % 2 ^ 8 ∧ c % 2 ^ 8 ≤ 255) ∧
        c ≠ 0xff000000) := by
  constructor
  · intro w h calls
    induction calls with
    | nil =>
        intro buf buf2 hr p
        obtain rfl := (Option.some.inj hr).symm
        exact Iff.rfl
    | cons sc rest ih =>
        intro buf buf2 hr p
        unfold renderSpans at hr
        cases hs : renderSpan sc.m_inter sc.vtxAt w h sc.v1 sc.v2 buf with
        | none => rw [hs] at hr; exact Option.noConfusion hr
        | some bufm =>
            rw [hs] at hr
            rw [ih bufm buf2 hr p]
            exact renderSpan_mask sc.m_inter sc.vtxAt w h sc.v1 sc.v2
              buf bufm hs p
  · exact vertexColor_spec

/-! Batteries marks the `ℚ` field operations `@[irreducible]`, which blocks
elaborator-level evaluation of the concrete witness below; restore the
default reducibility locally (the kernel is unaffected either way). -/

attribute [local semireducible] Rat.add Rat.sub Rat.mul Rat.inv

/-- An all-zero renderable vertex. -/
def vertex0 : VERTEX := ⟨0, 0, 0, 0, 0, 0⟩

/-- A concrete scalar-mode span across the single pixel of a 1×1 buffer. -/
def spanCall0 : SpanCall :=
  ⟨INTER_SCALAR, fun _ => vertex0,
    ⟨1 / 4, 1 / 2, 0, 0, 0, 0⟩, ⟨3 / 4, 1 / 2, 0, 0, 0, 0⟩⟩

/-- The buffer obtained by rendering `spanCall0` over an unmasked buffer. -/
def bufR : ℕ → ℕ :=
  match renderSpans 1 1 [spanCall0] (fun _ => 0) with
  | some b => b
  | none => fun _ => 0

/-- Witness for C4: the concrete span render completes, preserves the mask
predicate on every pixel, and `vertexColor` on the all-zero vertex is a
well-formed non-sentinel colour. -/
theorem renderSpan_mask_preserved_witness :
    renderSpans 1 1 [spanCall0] (fun _ => 0) = some bufR ∧
      (∀ p, (bufR p = 0xff000000 ↔ (fun _ => (0 : ℕ)) p = 0xff000000)) ∧
      (∃ c, vertexColor INTER_SCALAR vertex0 = some c ∧
        c / 2 ^ 24 = 255 ∧
        (1 ≤ c / 2 ^ 16 % 2 ^ 8 ∧ c / 2 ^ 16 % 2 ^ 8 ≤ 255) ∧
        (1 ≤ c / 2 ^ 8 % 2 ^ 8 ∧ c / 2 ^ 8 % 2 ^ 8 ≤ 255) ∧
        (1 ≤ c % 2 ^ 8 ∧ c % 2 ^ 8 ≤ 255) ∧
        c ≠ 0xff000000) :=
  ⟨rfl,
    renderSpan_mask_preserved.1 1 1 [spanCall0] (fun _ => 0) bufR rfl,
    renderSpan_mask_preserved.2 INTER_SCALAR vertex0 (Or.inl rfl)⟩

/-! ## Interpolator IVEC (lilacme2png.c lines 747-1068), over ℝ

Claim C8 is about exact real arithmetic, so the interpolator is embedded
over `ℝ` (hence the definitions below are noncomputable: `ℝ` comparisons
are classically decidable).  The finiteness checks of the C code are
vacuous over `ℝ`; `raiseErr` for an unset mode is `none`. -/

def IMODE_SCALAR : ℕ := 1
def IMODE_VLINEAR : ℕ := 2
def IMODE_SLERP : ℕ := 3
def IMODE_DOUBLE : ℕ := 4

noncomputable def MIN_SLERP_ANGLE : ℝ := Real.pi / 1024

noncomputable def MAX_SLERP_ANGLE : ℝ := Real.pi - Real.pi / 1024

structure RVERTEX where
  x : ℝ
  y : ℝ
  v : ℝ
  vx : ℝ
  vy : ℝ
  vz : ℝ

structure RIVEC where
  v1 : RVERTEX
  v2 : RVERTEX
  mode : ℕ
  angle : ℝ
  denom : ℝ

/-- The clamp of the dot product in `ivec_init` (lines 783-787). -/
noncomputable def clampDot (d : ℝ) : ℝ :=
  if ¬ (d ≥ -1) then -1 else if ¬ (d ≤ 1) then 1 else d

/-- The angle computed by `ivec_init` in vector mode (lines 774-793). -/
noncomputable def ivecAngle (va vb : RVERTEX) : ℝ :=
  Real.arccos (clampDot (va.vx * vb.vx + va.vy * vb.vy + va.vz * vb.vz))

/-- `ivec_init` (lines 747-827). -/
noncomputable def ivec_init (m_inter : ℕ) (va vb : RVERTEX) :
    Option RIVEC :=
  if m_inter = INTER_SCALAR then some ⟨va, vb, IMODE_SCALAR, 0, 0⟩
  else if m_inter = INTER_VECTOR then
    if ivecAngle va vb ≥ MIN_SLERP_ANGLE ∧
        ivecAngle va vb ≤ MAX_SLERP_ANGLE then
      some ⟨va, vb, IMODE_SLERP, ivecAngle va vb,
        Real.sin (ivecAngle va vb)⟩
    else if ivecAngle va vb < MIN_SLERP_ANGLE then
      some ⟨va, vb, IMODE_VLINEAR, 0, 0⟩
    else if ivecAngle va vb > MAX_SLERP_ANGLE then
      some ⟨va, vb, IMODE_DOUBLE, 0, 0⟩
    else none
  else none

/-- The `t` clamp of `ivec_compute` (lines 862-867). -/
noncomputable def clampT (t : ℝ) : ℝ :=
  if ¬ (t ≥ 0) then 0 else if ¬ (t ≤ 1) then 1 else t

/-- The scalar-result clamp of `ivec_compute` (lines 893-898). -/
noncomputable def clampSV (f : ℝ) : ℝ :=
  if ¬ (f ≥ -1) then -1 else if ¬ (f ≤ 1) then 1 else f

/-- `ivec_compute` (lines 846-1068). -/
noncomputable def ivec_compute (piv : RIVEC) (t0 : ℝ) : Option RVERTEX :=
  if piv.mode = IMODE_SCALAR then
    some ⟨piv.v1.x * (1 - clampT t0) + piv.v2.x * clampT t0,
      piv.v1.y * (1 - clampT t0) + piv.v2.y * clampT t0,
      clampSV (piv.v1.v * (1 - clampT t0) + piv.v2.v * clampT t0),
      0, 0, 0⟩
  else if piv.mode = IMODE_VLINEAR then
    some ⟨piv.v1.x * (1 - clampT t0) + piv.v2.x * clampT t0,
      piv.v1.y * (1 - clampT t0) + piv.v2.y * clampT t0, 0,
      piv.v1.vx * (1 - clampT t0) + piv.v2.vx * clampT t0,
      piv.v1.vy * (1 - clampT t0) + piv.v2.vy * clampT t0,
      piv.v1.vz * (1 - clampT t0) + piv.v2.vz * clampT t0⟩
  else if piv.mode = IMODE_SLERP then
    some ⟨piv.v1.x * (1 - clampT t0) + piv.v2.x * clampT t0,
      piv.v1.y * (1 - clampT t0) + piv.v2.y * clampT t0, 0,
      (Real.sin ((1 - clampT t0) * piv.angle) * piv.v1.vx +
        Real.sin (clampT t0 * piv.angle) * piv.v2.vx) / piv.denom,
      (Real.sin ((1 - clampT t0) * piv.angle) * piv.v1.vy +
        Real.sin (clampT t0 * piv.angle) * piv.v2.vy) / piv.denom,
      (Real.sin ((1 - clampT t0) * piv.angle) * piv.v1.vz +
        Real.sin (clampT t0 * piv.angle) * piv.v2.vz) / piv.denom⟩
  else if piv.mode = IMODE_DOUBLE then
    if clampT t0 < 1 / 2 then
      some ⟨piv.v1.x * (1 - clampT t0) + piv.v2.x * clampT t0,
        piv.v1.y * (1 - clampT t0) + piv.v2.y * clampT t0, 0,
        Real.sin ((1 - clampT t0 * 2) * (Real.pi / 2)) * piv.v1.vx,
        Real.sin ((1 - clampT t0 * 2) * (Real.pi / 2)) * piv.v1.vy,
        Real.sin ((1 - clampT t0 * 2) * (Real.pi / 2)) * piv.v1.vz +
          Real.sin (clampT t0 * 2 * (Real.pi / 2))⟩
    else
      some ⟨piv.v1.x * (1 - clampT t0) + piv.v2.x * clampT t0,
        piv.v1.y * (1 - clampT t0) + piv.v2.y * clampT t0, 0,
        Real.sin ((clampT t0 - 1 / 2) * 2 * (Real.pi / 2)) * piv.v2.vx,
        Real.sin ((clampT t0 - 1 / 2) * 2 * (Real.pi / 2)) * piv.v2.vy,
        Real.sin ((1 - (clampT t0 - 1 / 2) * 2) * (Real.pi / 2)) +
          Real.sin ((clampT t0 - 1 / 2) * 2 * (Real.pi / 2)) * piv.v2.vz⟩
  else none

lemma clampT_mem {t : ℝ} (h0 : 0 ≤ t) (h1 : t ≤ 1) : clampT t = t := by
  unfold clampT
  rw [if_neg (by simpa using h0), if_neg (by simpa using h1)]

lemma clampSV_mem {f : ℝ} (h0 : -1 ≤ f) (h1 : f ≤ 1) : clampSV f = f := by
  unfold clampSV
  rw [if_neg (by simpa using h0), if_neg (by simpa using h1)]

/-- Endpoint agreement between an interpolation result `r` and an endpoint
vertex `v`: positions agree, and the interpolated attribute agrees — the
scalar value `v` in scalar mode, the vector `(vx, vy, vz)` in the three
vector modes. -/
def endpointMatch (mode : ℕ) (r v : RVERTEX) : Prop :=
  r.x = v.x ∧ r.y = v.y ∧
  (mode = IMODE_SCALAR → r.v = v.v) ∧
  (mode = IMODE_VLINEAR ∨ mode = IMODE_SLERP ∨ mode = IMODE_DOUBLE →
    r.vx = v.vx ∧ r.vy = v.vy ∧ r.vz = v.vz)

lemma ivec_compute_scalar (va vb : RVERTEX)
    (ha : -1 ≤ va.v ∧ va.v ≤ 1) (hb : -1 ≤ vb.v ∧ vb.v ≤ 1) :
    ivec_compute ⟨va, vb, IMODE_SCALAR, 0, 0⟩ 0
      = some ⟨va.x, va.y, va.v, 0, 0, 0⟩ ∧
    ivec_compute ⟨va, vb, IMODE_SCALAR, 0, 0⟩ 1
      = some ⟨vb.x, vb.y, vb.v, 0, 0, 0⟩ := by
  have h0 : clampT 0 = 0 := clampT_mem le_rfl zero_le_one
  have h1 : clampT 1 = 1 := clampT_mem zero_le_one le_rfl
  constructor
  · simp only [ivec_compute, h0]
    rw [if_pos trivial]
    have hv : va.v * (1 - (0:ℝ)) + vb.v * 0 = va.v := by ring
    rw [hv, clampSV_mem ha.1 ha.2]
    simp only [Option.some.injEq, RVERTEX.mk.injEq]
    refine ⟨?_, ?_, ?_, ?_, ?_, ?_⟩ <;> first | trivial | ring
  · simp only [ivec_compute, h1]
    rw [if_pos trivial]
    have hv : va.v * (1 - (1:ℝ)) + vb.v * 1 = vb.v := by ring
    rw [hv, clampSV_mem hb.1 hb.2]
    simp only [Option.some.injEq, RVERTEX.mk.injEq]
    refine ⟨?_, ?_, ?_, ?_, ?_, ?_⟩ <;> first | trivial | ring

lemma ivec_compute_vlinear (va vb : RVERTEX) :
    ivec_compute ⟨va, vb, IMODE_VLINEAR, 0, 0⟩ 0
      = some ⟨va.x, va.y, 0, va.vx, va.vy, va.vz⟩ ∧
    ivec_compute ⟨va, vb, IMODE_VLINEAR, 0, 0⟩ 1
      = some ⟨vb.x, vb.y, 0, vb.vx, vb.vy, vb.vz⟩ := by
  have h0 : clampT 0 = 0 := clampT_mem le_rfl zero_le_one
  have h1 : clampT 1 = 1 := clampT_mem zero_le_one le_rfl
  constructor
  · simp only [ivec_compute, h0]
    rw [if_neg (by decide), if_pos trivial]
    simp only [Option.some.injEq, RVERTEX.mk.injEq]
    refine ⟨?_, ?_, ?_, ?_, ?_, ?_⟩ <;> first | trivial | ring
  · simp only [ivec_compute, h1]
    rw [if_neg (by decide), if_pos trivial]
    simp only [Option.some.injEq, RVERTEX.mk.injEq]
    refine ⟨?_, ?_, ?_, ?_, ?_, ?_⟩ <;> first | trivial | ring

lemma ivec_compute_slerp (va vb : RVERTEX) (angle : ℝ)
    (hd : Real.sin angle ≠ 0) :
    ivec_compute ⟨va, vb, IMODE_SLERP, angle, Real.sin angle⟩ 0
      = some ⟨va.x, va.y, 0, va.vx, va.vy, va.vz⟩ ∧
    ivec_compute ⟨va, vb, IMODE_SLERP, angle, Real.sin angle⟩ 1
      = some ⟨vb.x, vb.y, 0, vb.vx, vb.vy, vb.vz⟩ := by
  have h0 : clampT 0 = 0 := clampT_mem le_rfl zero_le_one
  have h1 : clampT 1 = 1 := clampT_mem zero_le_one le_rfl
  constructor
  · simp only [ivec_compute, h0]
    rw [if_neg (by decide), if_neg (by decide), if_pos trivial]
    have e1 : (1 - (0:ℝ)) * angle = angle := by ring
    have e2 : (0:ℝ) * angle = 0 := by ring
    rw [e1, e2, Real.sin_zero]
    simp only [Option.some.injEq, RVERTEX.mk.injEq]
    refine ⟨?_, ?_, ?_, ?_, ?_, ?_⟩ <;>
      first
      | trivial
      | (rw [div_eq_iff hd]; ring1)
      | ring1
  · simp only [ivec_compute, h1]
    rw [if_neg (by decide), if_neg (by decide), if_pos trivial]
    have e1 : (1 - (1:ℝ)) * angle = 0 := by ring
    have e2 : (1:ℝ) * angle = angle := by ring
    rw [e1, e2, Real.sin_zero]
    simp only [Option.some.injEq, RVERTEX.mk.injEq]
    refine ⟨?_, ?_, ?_, ?_, ?_, ?_⟩ <;>
      first
      | trivial
      | (rw [div_eq_iff hd]; ring1)
      | ring1

lemma ivec_compute_double (va vb : RVERTEX) :
    ivec_compute ⟨va, vb, IMODE_DOUBLE, 0, 0⟩ 0
      = some ⟨va.x, va.y, 0, va.vx, va.vy, va.vz⟩ ∧
    ivec_compute ⟨va, vb, IMODE_DOUBLE, 0, 0⟩ 1
      = some ⟨vb.x, vb.y, 0, vb.vx, vb.vy, vb.vz⟩ := by
  have h0 : clampT 0 = 0 := clampT_mem le_rfl zero_le_one
  have h1 : clampT 1 = 1 := clampT_mem zero_le_one le_rfl
  constructor
  · simp only [ivec_compute, h0]
    rw [if_neg (by decide), if_neg (by decide), if_neg (by decide),
      if_pos trivial, if_pos (by norm_num)]
    have e1 : (1 - (0:ℝ) * 2) * (Real.pi / 2) = Real.pi / 2 := by ring
    have e2 : (0:ℝ) * 2 * (Real.pi / 2) = 0 := by ring
    rw [e1, e2, Real.sin_pi_div_two, Real.sin_zero]
    simp only [Option.some.injEq, RVERTEX.mk.injEq]
    refine ⟨?_, ?_, ?_, ?_, ?_, ?_⟩ <;> first | trivial | ring
  · simp only [ivec_compute, h1]
    rw [if_neg (by decide), if_neg (by decide), if_neg (by decide),
      if_pos trivial, if_neg (by norm_num)]
    have e1 : (1 - ((1:ℝ) - 1 / 2) * 2) * (Real.pi / 2) = 0 := by ring
    have e2 : ((1:ℝ) - 1 / 2) * 2 * (Real.pi / 2) = Real.pi / 2 := by ring
    rw [e1, e2, Real.sin_pi_div_two, Real.sin_zero]
    simp only [Option.some.injEq, RVERTEX.mk.injEq]
    refine ⟨?_, ?_, ?_, ?_, ?_, ?_⟩ <;> first | trivial | ring

/-- **C8.** For every interpolator successfully built by `ivec_init` from
valid vertices `va` and `vb` (scalar attribute in `[-1, 1]`), in every
interpolation mode — scalar linear, vector linear, slerp, and double
slerp — evaluating `ivec_compute` at `t = 0` yields `va`'s position and
attribute, and evaluating at `t = 1` yields `vb`'s position and attribute,
in exact real arithmetic. -/
theorem ivec_endpoints (m_inter : ℕ) (va vb : RVERTEX) (piv : RIVEC)
    (hva : -1 ≤ va.v ∧ va.v ≤ 1) (hvb : -1 ≤ vb.v ∧ vb.v ≤ 1)
    (hinit : ivec_init m_inter va vb = some piv) :
    (∃ r0, ivec_compute piv 0 = some r0 ∧ endpointMatch piv.mode r0 va) ∧
    (∃ r1, ivec_compute piv 1 = some r1 ∧ endpointMatch piv.mode r1 vb) := by
  unfold ivec_init at hinit
  by_cases hs : m_inter = INTER_SCALAR
  · rw [if_pos hs] at hinit
    cases Option.some.inj hinit
    refine ⟨⟨_, (ivec_compute_scalar va vb hva hvb).1, ?_⟩,
      ⟨_, (ivec_compute_scalar va vb hva hvb).2, ?_⟩⟩ <;>
      · refine ⟨rfl, rfl, fun _ => rfl, fun h => ?_⟩
        rcases h with h | h | h <;>
          simp [IMODE_SCALAR, IMODE_VLINEAR, IMODE_SLERP, IMODE_DOUBLE] at h
  by_cases hv2 : m_inter = INTER_VECTOR
  · rw [if_neg hs, if_pos hv2] at hinit
    by_cases hang : ivecAngle va vb ≥ MIN_SLERP_ANGLE ∧
        ivecAngle va vb ≤ MAX_SLERP_ANGLE
    · rw [if_pos hang] at hinit
      cases Option.some.inj hinit
      have hmin : MIN_SLERP_ANGLE = Real.pi / 1024 := rfl
      have hmax : MAX_SLERP_ANGLE = Real.pi - Real.pi / 1024 := rfl
      have hpi := Real.pi_pos
      have hgt0 : 0 < ivecAngle va vb := by
        have := hang.1; rw [hmin] at this; linarith
      have hltpi : ivecAngle va vb < Real.pi := by
        have := hang.2; rw [hmax] at this; linarith
      have hd : Real.sin (ivecAngle va vb) ≠ 0 :=
        ne_of_gt (Real.sin_pos_of_pos_of_lt_pi hgt0 hltpi)
      refine ⟨⟨_, (ivec_compute_slerp va vb (ivecAngle va vb) hd).1, ?_⟩,
        ⟨_, (ivec_compute_slerp va vb (ivecAngle va vb) hd).2, ?_⟩⟩ <;>
        · refine ⟨rfl, rfl, fun h => ?_, fun _ => ⟨rfl, rfl, rfl⟩⟩
          simp [IMODE_SLERP, IMODE_SCALAR] at h
    rw [if_neg hang] at hinit
    by_cases hlt : ivecAngle va vb < MIN_SLERP_ANGLE
    · rw [if_pos hlt] at hinit
      cases Option.some.inj hinit
      refine ⟨⟨_, (ivec_compute_vlinear va vb).1, ?_⟩,
        ⟨_, (ivec_compute_vlinear va vb).2, ?_⟩⟩ <;>
        · refine ⟨rfl, rfl, fun h => ?_, fun _ => ⟨rfl, rfl, rfl⟩⟩
          simp [IMODE_VLINEAR, IMODE_SCALAR] at h
    rw [if_neg hlt] at hinit
    by_cases hgt : ivecAngle va vb > MAX_SLERP_ANGLE
    · rw [if_pos hgt] at hinit
      cases Option.some.inj hinit
      refine ⟨⟨_, (ivec_compute_double va vb).1, ?_⟩,
        ⟨_, (ivec_compute_double va vb).2, ?_⟩⟩ <;>
        · refine ⟨rfl, rfl, fun h => ?_, fun _ => ⟨rfl, rfl, rfl⟩⟩
          simp [IMODE_DOUBLE, IMODE_SCALAR] at h
    rw [if_neg hgt] at hinit
    exact absurd hinit (by simp)
  · rw [if_neg hs, if_neg hv2] at hinit
    exact absurd hinit (by simp)

def rva0 : RVERTEX := ⟨0, 0, 0, 0, 0, 0⟩

def rpiv0 : RIVEC := ⟨rva0, rva0, IMODE_SCALAR, 0, 0⟩

theorem ivec_endpoints_witness :
    ((-1 ≤ rva0.v ∧ rva0.v ≤ 1) ∧
      ivec_init INTER_SCALAR rva0 rva0 = some rpiv0) ∧
    ((∃ r0, ivec_compute rpiv0 0 = some r0 ∧
        endpointMatch rpiv0.mode r0 rva0) ∧
      (∃ r1, ivec_compute rpiv0 1 = some r1 ∧
        endpointMatch rpiv0.mode r1 rva0)) :=
  ⟨⟨⟨by norm_num [rva0], by norm_num [rva0]⟩, by rw [ivec_init]; rfl⟩,
    ivec_endpoints INTER_SCALAR rva0 rva0 rpiv0
      ⟨by norm_num [rva0], by norm_num [rva0]⟩
      ⟨by norm_num [rva0], by norm_num [rva0]⟩ (by rw [ivec_init]; rfl)⟩
